import Mathlib

/-!
Verification development for a two-stage batch ETL pipeline
(extractor-per-listing/main.py and materialize-master/main.py).

Modelling conventions (shallow embedding of the Python source):
- Character classes of the regular expressions (\d, \s, \w, [A-Z], ...)
  are modelled over ASCII, matching the repository's data (object-store
  path components and listing text used by the claims are ASCII).
- Each compiled regex is embedded as a dedicated leftmost-match scanner
  that is faithful to the backtracking behaviour of the specific pattern
  (verified against the pattern structure; greedy sub-matches are exact
  because adjacent character classes of these patterns are disjoint,
  except for the mileage pattern m3 whose genuine backtracking over
  \d{1,3}(?:[,\d]{3})* is implemented explicitly).
- Python `$` in a fully-anchored pattern also matches just before a
  single trailing newline; the run-id matchers model that.
- datetime.strptime on the two run-id layouts forces a positional field
  split (the field widths are exactly filled), so it is modelled as
  positional parsing plus calendar validation; machine integers do not
  arise (Python ints are unbounded, modelled as Nat/Int).
- CPython float("...") of a decimal numeral overflows to inf exactly
  when the value reaches (2^53-1)*2^971 + 2^970 (round-half-even cutoff
  to 2^1024); int(inf * 1000) then raises OverflowError, which the
  source only guards with `except ValueError`.  Finite values are
  modelled by exact truncation; IEEE rounding of finite values can
  differ only for fractional tokens with more than ~15 significant
  digits, which no statement below depends on.
- Fallible Python code is modelled with Except; object-store reads,
  writes and listings are explicit parameters/state (the storage client
  is an external collaborator per the system's scope).
-/

/-! ### Character classes (ASCII models of the Python regex classes) -/

/-- Python `\s` (ASCII part): space, tab, newline, carriage return,
vertical tab, form feed. -/
def isPySpace (c : Char) : Bool :=
  c == ' ' || c == '\t' || c == '\n' || c == '\r' ||
  c == Char.ofNat 11 || c == Char.ofNat 12

/-- Python `\w` (ASCII part): letters, digits, underscore. -/
def isWordChar (c : Char) : Bool :=
  c.isAlpha || c.isDigit || c == '_'

/-- The class `[0-9,]` used by the price pattern, and `[\d,]` of m1/m3. -/
def isDigComma (c : Char) : Bool := c.isDigit || c == ','

def isUpperAZ (c : Char) : Bool := 'A' ≤ c && c ≤ 'Z'

def isLowerAZ (c : Char) : Bool := 'a' ≤ c && c ≤ 'z'

/-- The class `[A-Za-z0-9]` of the make/model pattern. -/
def isAlnumAZ (c : Char) : Bool := isUpperAZ c || isLowerAZ c || c.isDigit

/-- Numeric value of a digit string (Python int of a digit run). -/
def digitsVal (l : List Char) : Nat :=
  l.foldl (fun a c => a * 10 + (c.toNat - 48)) 0

/-! ### PRICE_RE = `\$\s?([0-9,]+)` : leftmost search, group 1 -/

/-- Leftmost match of `\$\s?([0-9,]+)`; returns group 1.  After a `$`,
the single optional whitespace is consumed greedily; backtracking to
zero whitespace cannot help because whitespace is not in `[0-9,]`. -/
def priceScan : List Char → Option (List Char)
  | [] => none
  | '$' :: rest =>
      match rest with
      | c :: rest2 =>
          if isPySpace c then
            let g := rest2.takeWhile isDigComma
            if g.isEmpty then priceScan rest else some g
          else
            let g := rest.takeWhile isDigComma
            if g.isEmpty then priceScan rest else some g
      | [] => none
  | _ :: rest => priceScan rest

/-! ### YEAR_RE = `\b(19|20)\d{2}\b` : leftmost search, group 0 -/

/-- Try the year pattern at the head of `l` (word boundary on the left
already checked by the caller). -/
def yearAt : List Char → Option Nat
  | c0 :: c1 :: c2 :: c3 :: t =>
      if ((c0 == '1' && c1 == '9') || (c0 == '2' && c1 == '0')) &&
         c2.isDigit && c3.isDigit &&
         (match t with | [] => true | d :: _ => !isWordChar d) then
        some (digitsVal [c0, c1, c2, c3])
      else none
  | _ => none

/-- Leftmost search for YEAR_RE; `prevWord` records whether the
previous character is a word character (for the left `\b`). -/
def yearScanAux (prevWord : Bool) : List Char → Option Nat
  | [] => none
  | c :: t =>
      (if prevWord then none else yearAt (c :: t)) <|> yearScanAux (isWordChar c) t

/-! ### MAKE_MODEL_RE = `\b([A-Z][a-z]+)\s+([A-Z][A-Za-z0-9]+)` -/

/-- Try the make/model pattern at the head of `l`.  All sub-matches are
greedy and exact: giving back from `[a-z]+` or `\s+` cannot help since
the follow-up classes are disjoint from them. -/
def mmAt : List Char → Option (String × String)
  | c :: rest =>
      if isUpperAZ c then
        let low := rest.takeWhile isLowerAZ
        if low.isEmpty then none
        else
          let r1 := rest.drop low.length
          let sp := r1.takeWhile isPySpace
          if sp.isEmpty then none
          else
            match r1.drop sp.length with
            | d :: rest2 =>
                if isUpperAZ d then
                  let an := rest2.takeWhile isAlnumAZ
                  if an.isEmpty then none
                  else some (String.mk (c :: low), String.mk (d :: an))
                else none
            | [] => none
      else none
  | [] => none

def mmScanAux (prevWord : Bool) : List Char → Option (String × String)
  | [] => none
  | c :: t =>
      (if prevWord then none else mmAt (c :: t)) <|> mmScanAux (isWordChar c) t

/-! ### mileage pattern m1 = `(?:mileage|odometer)\s*[:\-]?\s*([\d,]+)` (re.I) -/

/-- Case-insensitively strip a (lowercase) keyword from the head,
returning the remainder. -/
def dropCI : List Char → List Char → Option (List Char)
  | [], l => some l
  | _ :: _, [] => none
  | k :: ks, c :: cs => if c.toLower == k then dropCI ks cs else none

/-- Try m1 at the head of `l`; returns group 1.  The three inner
classes (whitespace, `[:\-]`, `[\d,]`) are pairwise disjoint, so
greedy matching without backtracking is exact. -/
def m1At (l : List Char) : Option (List Char) :=
  (dropCI ['m','i','l','e','a','g','e'] l <|> dropCI ['o','d','o','m','e','t','e','r'] l).bind
    fun rest =>
      let r1 := rest.dropWhile isPySpace
      let r2 := match r1 with
                | c :: t => if c == ':' || c == '-' then t else r1
                | [] => r1
      let r3 := r2.dropWhile isPySpace
      let g := r3.takeWhile isDigComma
      if g.isEmpty then none else some g

def m1Scan : List Char → Option (List Char)
  | [] => none
  | c :: t => m1At (c :: t) <|> m1Scan t

/-! ### mileage pattern m2 = `(\d+(?:\.\d+)?)\s*k\s*(?:mi|mile|miles)\b` (re.I) -/

/-- Right word boundary `\b` after a word character: end of input or a
non-word character. -/
def bdry : List Char → Bool
  | [] => true
  | c :: _ => !isWordChar c

/-- `(?:mi|mile|miles)\b` (case-insensitive): succeeds iff some
alternative followed by a word boundary matches. -/
def unitBd (l : List Char) : Bool :=
  (match dropCI ['m','i'] l with | some r => bdry r | none => false) ||
  (match dropCI ['m','i','l','e'] l with | some r => bdry r | none => false) ||
  (match dropCI ['m','i','l','e','s'] l with | some r => bdry r | none => false)

/-- Try m2 at the head of `l`; returns (integer digits, fraction
digits) of group 1. -/
def m2At (l : List Char) : Option (List Char × List Char) :=
  let d := l.takeWhile Char.isDigit
  if d.isEmpty then none
  else
    let r1 := l.drop d.length
    let fr : List Char × List Char :=
      match r1 with
      | '.' :: t =>
          let f := t.takeWhile Char.isDigit
          if f.isEmpty then ([], r1) else (f, t.drop f.length)
      | _ => ([], r1)
    let r2 := fr.2.dropWhile isPySpace
    match r2 with
    | c :: r3 =>
        if c.toLower == 'k' then
          let r4 := r3.dropWhile isPySpace
          if unitBd r4 then some (d, fr.1) else none
        else none
    | [] => none

def m2Scan : List Char → Option (List Char × List Char)
  | [] => none
  | c :: t => m2At (c :: t) <|> m2Scan t

/-! ### mileage pattern m3 = `(\d{1,3}(?:[,\d]{3})*)\s*(?:mi|mile|miles)\b` (re.I) -/

/-- Maximal number of consecutive 3-character chunks of `[,\d]`. -/
def chunk3Count : List Char → Nat
  | a :: b :: c :: t => if isDigComma a && isDigComma b && isDigComma c then chunk3Count t + 1 else 0
  | _ => 0

/-- `\s*(?:mi|mile|miles)\b` at `l`. -/
def m3Tail (l : List Char) : Bool := unitBd (l.dropWhile isPySpace)

/-- Backtracking over the star: try `r` repetitions, then fewer. -/
def bestReps (rest : List Char) : Nat → Option Nat
  | 0 => if m3Tail rest then some 0 else none
  | r + 1 => if m3Tail (rest.drop (3 * (r + 1))) then some (r + 1) else bestReps rest r

/-- Try m3 at head with `\d{1,3}` taking exactly `n` digits; value is
int(re.sub(non-digits removed)) of group 1. -/
def m3TryN (l : List Char) (n : Nat) : Option Nat :=
  let d := l.take n
  if d.length == n && d.all Char.isDigit then
    let rest := l.drop n
    match bestReps rest (chunk3Count rest) with
    | some r => some (digitsVal ((l.take (n + 3 * r)).filter Char.isDigit))
    | none => none
  else none

/-- m3 at one position: `\d{1,3}` greedily tries 3, 2, then 1 digits,
each with its star backtracking, exactly as the regex engine does. -/
def m3At (l : List Char) : Option Nat :=
  m3TryN l 3 <|> m3TryN l 2 <|> m3TryN l 1

def m3Scan : List Char → Option Nat
  | [] => none
  | c :: t => m3At (c :: t) <|> m3Scan t

/-! ### parse_listing -/

/-- The optional extracted fields of one listing. -/
structure Fields where
  price : Option Int := none
  year : Option Int := none
  make : Option String := none
  model : Option String := none
  mileage : Option Int := none
deriving DecidableEq, Repr

/-- Decimal values at or above this integer overflow CPython's float
conversion to inf (round-half-even cutoff to 2^1024). -/
def floatInfCutoff : Nat := 179769313486231580793728971405303415079934132710037826936173778980444968292764750946649017977587207096330286416692887910946555547851940402630657488671505820681908902000708383676273854845817711531764475730270069855571366959622842914819860834936475292719074168444365510704342711559699508093042880177904174497792

/-- int(float(group1) * 1000) of the m2 handler: raises OverflowError
(modelled as an error) when float(group1) is inf; otherwise exact
truncation of value * 1000. -/
def m2Value (d f : List Char) : Except Unit Int :=
  let a := digitsVal d
  if floatInfCutoff ≤ a then .error ()
  else
    let k := f.length
    .ok (Int.ofNat ((a * 10 ^ k * 1000 + digitsVal f * 1000) / 10 ^ k))

/-- The mileage chain of parse_listing: m1, then m2, then m3; a
ValueError inside a stage falls through to the next stage, but the
OverflowError of the m2 handler propagates (only ValueError is
caught in the source). -/
def mileageOf (l : List Char) : Except Unit (Option Int) :=
  let mi1 : Option Int :=
    match m1Scan l with
    | some g =>
        let ds := g.filter (fun c => !(c == ','))
        if ds.isEmpty then none else some (Int.ofNat (digitsVal ds))
    | none => none
  match mi1 with
  | some v => .ok (some v)
  | none =>
      match m2Scan l with
      | some (d, f) => (m2Value d f).map some
      | none =>
          match m3Scan l with
          | some v => .ok (some (Int.ofNat v))
          | none => .ok none

/-- parse_listing of extractor-per-listing/main.py.  Absent or
unparsable fields are omitted (`none`); the only uncaught exception is
the OverflowError of the m2 mileage handler. -/
def parse_listing (text : String) : Except Unit Fields :=
  let l := text.toList
  let p : Option Int :=
    match priceScan l with
    | some g =>
        let ds := g.filter (fun c => !(c == ','))
        if ds.isEmpty then none else some (Int.ofNat (digitsVal ds))
    | none => none
  let y : Option Int := (yearScanAux false l).map (fun n => Int.ofNat n)
  let mm := mmScanAux false l
  (mileageOf l).map fun mi =>
    { price := p, year := y, make := mm.map Prod.fst, model := mm.map Prod.snd, mileage := mi }

/-! ### Run-id patterns and timestamp parsing -/

/-- Core of `^\d{14}$`: exactly 14 ASCII digits. -/
def reCorePlain (cs : List Char) : Bool :=
  cs.length == 14 && cs.all Char.isDigit

/-- Core of `^\d{8}T\d{6}Z$`. -/
def reCoreISO (cs : List Char) : Bool :=
  cs.length == 16 && (cs.take 8).all Char.isDigit &&
  cs.get? 8 == some 'T' && ((cs.drop 9).take 6).all Char.isDigit &&
  cs.get? 15 == some 'Z'

/-- `RUN_ID_PLAIN_RE.match(s)`: Python `$` also matches just before one
trailing newline. -/
def matchPlain (s : String) : Bool :=
  let cs := s.toList
  reCorePlain cs || (cs.getLast? == some '\n' && reCorePlain cs.dropLast)

/-- `RUN_ID_ISO_RE.match(s)`. -/
def matchISO (s : String) : Bool :=
  let cs := s.toList
  reCoreISO cs || (cs.getLast? == some '\n' && reCoreISO cs.dropLast)

def isLeap (y : Nat) : Bool := y % 4 == 0 && (y % 100 != 0 || y % 400 == 0)

def daysInMonth (y m : Nat) : Nat :=
  if m == 2 then (if isLeap y then 29 else 28)
  else if m == 4 || m == 6 || m == 9 || m == 11 then 30
  else 31

/-- Field validation performed by datetime.strptime/datetime(...). -/
def validDT (y mo d h mi s : Nat) : Bool :=
  1 ≤ y && 1 ≤ mo && mo ≤ 12 && 1 ≤ d && d ≤ daysInMonth y mo &&
  h ≤ 23 && mi ≤ 59 && s ≤ 59

/-- A UTC datetime encoded as the 14-digit numeral YYYYMMDDHHMMSS;
datetime comparison coincides with Nat comparison of this encoding. -/
def encodeDT (y mo d h mi s : Nat) : Nat :=
  ((((y * 100 + mo) * 100 + d) * 100 + h) * 100 + mi) * 100 + s

/-- datetime.strptime(s, "%Y%m%d%H%M%S"): on a 14-digit string the
field widths are forced (4+2+2+2+2+2 is the only split consuming all
input), so parsing is positional; invalid fields raise (none). -/
def strptime14 (s : String) : Option Nat :=
  let cs := s.toList
  if reCorePlain cs then
    let y := digitsVal (cs.take 4)
    let mo := digitsVal ((cs.drop 4).take 2)
    let d := digitsVal ((cs.drop 6).take 2)
    let h := digitsVal ((cs.drop 8).take 2)
    let mi := digitsVal ((cs.drop 10).take 2)
    let sec := digitsVal ((cs.drop 12).take 2)
    if validDT y mo d h mi sec then some (encodeDT y mo d h mi sec) else none
  else none

/-- datetime.strptime(s, "%Y%m%dT%H%M%SZ"): positional for the exact
16-character layout, anything else (including a trailing newline)
raises. -/
def strptimeISO (s : String) : Option Nat :=
  let cs := s.toList
  if reCoreISO cs then
    let y := digitsVal (cs.take 4)
    let mo := digitsVal ((cs.drop 4).take 2)
    let d := digitsVal ((cs.drop 6).take 2)
    let h := digitsVal ((cs.drop 9).take 2)
    let mi := digitsVal ((cs.drop 11).take 2)
    let sec := digitsVal ((cs.drop 13).take 2)
    if validDT y mo d h mi sec then some (encodeDT y mo d h mi sec) else none
  else none

/-- dt.isoformat().replace("+00:00", "Z") for a datetime whose fields
are the given (already zero-padded) digit slices. -/
def isoFromParts (y mo d h mi s : List Char) : String :=
  String.mk y ++ "-" ++ String.mk mo ++ "-" ++ String.mk d ++ "T" ++
  String.mk h ++ ":" ++ String.mk mi ++ ":" ++ String.mk s ++ "Z"

/-- _parse_run_id_as_iso of the extractor: normalize either run-id
style to an ISO-8601 Z string; any failure falls back to the current
instant (passed in as `nowIso`). -/
def parse_run_id_as_iso (nowIso : String) (rid : String) : String :=
  let cs := rid.toList
  if matchISO rid then
    if (strptimeISO rid).isSome then
      isoFromParts (cs.take 4) ((cs.drop 4).take 2) ((cs.drop 6).take 2)
        ((cs.drop 9).take 2) ((cs.drop 11).take 2) ((cs.drop 13).take 2)
    else nowIso
  else if matchPlain rid then
    if (strptime14 rid).isSome then
      isoFromParts (cs.take 4) ((cs.drop 4).take 2) ((cs.drop 6).take 2)
        ((cs.drop 8).take 2) ((cs.drop 10).take 2) ((cs.drop 12).take 2)
    else nowIso
  else nowIso

/-- _run_id_to_dt of the materializer: a regex-matching run-id is
strptime-parsed (ValueError propagates, modelled as `.error`); anything
else falls back to the current instant `now`. -/
def run_id_to_dt (now : Nat) (rid : String) : Except Unit Nat :=
  if matchISO rid then
    match strptimeISO rid with
    | some t => .ok t
    | none => .error ()
  else if matchPlain rid then
    match strptime14 rid with
    | some t => .ok t
    | none => .error ()
  else .ok now

/-! ### Run-id discovery (_list_run_ids of both functions) -/

/-- `p.rstrip("/")`. -/
def rstripSlash (cs : List Char) : List Char :=
  (cs.reverse.dropWhile (fun c => c == '/')).reverse

/-- `x.split("/")[-1]` for a string without trailing slashes. -/
def lastSeg (cs : List Char) : List Char :=
  (cs.reverse.takeWhile (fun c => !(c == '/'))).reverse

/-- The subdirectory name of one listing prefix:
`pref.rstrip("/").split("/")[-1]`. -/
def tailOf (p : String) : String :=
  String.mk (lastSeg (rstripSlash p.toList))

/-- Python str.startswith, over code points. -/
def strStartsWith (s pre : String) : Bool :=
  pre.toList.isPrefixOf s.toList

/-- Python slicing s[n:], over code points. -/
def strDrop (s : String) (n : Nat) : String :=
  String.mk (s.toList.drop n)

/-- Python str.endswith, over code points. -/
def strEndsWith (s suf : String) : Bool :=
  suf.toList.isSuffixOf s.toList

/-- `tail.split("run_id=", 1)[1] if tail.startswith("run_id=") else tail`. -/
def stripRunIdLabel (t : String) : String :=
  if strStartsWith t "run_id=" then strDrop t 7 else t

/-- One-prefix acceptance decision of the extractor's _list_run_ids:
strip the optional label, keep the candidate iff a run-id regex
matches. -/
def exAccept (p : String) : Option String :=
  let cand := stripRunIdLabel (tailOf p)
  if matchISO cand || matchPlain cand then some cand else none

/-- One-prefix acceptance decision of the materializer's
_list_run_ids: only `run_id=`-labelled names are considered. -/
def matAccept (p : String) : Option String :=
  let tail := tailOf p
  if strStartsWith tail "run_id=" then
    let rid := strDrop tail 7
    if matchISO rid || matchPlain rid then some rid else none
  else none

/-- Python string comparison on code points, lexicographic (the order
used by sorted()). -/
def pyLeList : List Char → List Char → Bool
  | [], _ => true
  | _ :: _, [] => false
  | x :: xs, y :: ys =>
      if x.toNat < y.toNat then true
      else if y.toNat < x.toNat then false
      else pyLeList xs ys

def pyLe (a b : String) : Bool := pyLeList a.toList b.toList

/-- The sort relation of sorted(): total. -/
theorem pyLeList_total : ∀ xs ys, pyLeList xs ys = true ∨ pyLeList ys xs = true := by
  intro xs
  induction xs with
  | nil => intro ys; left; rfl
  | cons x xs ih =>
      intro ys
      cases ys with
      | nil => right; rfl
      | cons y ys =>
          by_cases h1 : x.toNat < y.toNat
          · left
            simp [pyLeList, h1]
          · by_cases h2 : y.toNat < x.toNat
            · right
              simp [pyLeList, h2]
            · rcases ih ys with h | h
              · left
                simpa [pyLeList, h1, h2] using h
              · right
                simpa [pyLeList, h1, h2] using h

/-- The sort relation of sorted(): transitive. -/
theorem pyLeList_trans : ∀ xs ys zs, pyLeList xs ys = true → pyLeList ys zs = true →
    pyLeList xs zs = true := by
  intro xs
  induction xs with
  | nil => intro ys zs _ _; rfl
  | cons x xs ih =>
      intro ys zs h1 h2
      cases ys with
      | nil => simp [pyLeList] at h1
      | cons y ys =>
          cases zs with
          | nil => simp [pyLeList] at h2
          | cons z zs =>
              simp only [pyLeList] at h1 h2 ⊢
              by_cases hxy : x.toNat < y.toNat
              · by_cases hyz : y.toNat < z.toNat
                · simp [Nat.lt_trans hxy hyz]
                · by_cases hzy : z.toNat < y.toNat
                  · simp [hyz, hzy] at h2
                  · have : y.toNat = z.toNat := Nat.le_antisymm (Nat.le_of_not_lt hzy) (Nat.le_of_not_lt hyz)
                    simp [this ▸ hxy]
              · by_cases hyx : y.toNat < x.toNat
                · simp [hxy, hyx] at h1
                · have hxyeq : x.toNat = y.toNat := Nat.le_antisymm (Nat.le_of_not_lt hyx) (Nat.le_of_not_lt hxy)
                  rw [if_neg hxy, if_neg hyx] at h1
                  by_cases hyz : y.toNat < z.toNat
                  · simp [hxyeq ▸ hyz]
                  · by_cases hzy : z.toNat < y.toNat
                    · simp [hyz, hzy] at h2
                    · rw [if_neg hyz, if_neg hzy] at h2
                      rw [if_neg (hxyeq ▸ hyz), if_neg (hxyeq ▸ hzy)]
                      exact ih ys zs h1 h2

instance : IsTotal String (fun a b => pyLe a b = true) :=
  ⟨fun a b => pyLeList_total a.toList b.toList⟩

instance : IsTrans String (fun a b => pyLe a b = true) :=
  ⟨fun a b c => pyLeList_trans a.toList b.toList c.toList⟩

/-- Extractor _list_run_ids over the listing's prefixes. -/
def ex_list_run_ids (ps : List String) : List String :=
  List.insertionSort (fun a b => pyLe a b = true) (ps.filterMap exAccept)

/-- Materializer _list_run_ids over the listing's prefixes. -/
def mat_list_run_ids (ps : List String) : List String :=
  List.insertionSort (fun a b => pyLe a b = true) (ps.filterMap matAccept)

/-! ### Data model: structured records and the object store -/

/-- One structured listing record (the JSON object written per input
file; `rec.setdefault("run_id", run_id)` in the materializer's reader
guarantees `run_id` is always present, so it is a total field). -/
structure Record where
  post_id : String
  run_id : String
  scraped_at : String
  source_txt : String
  price : Option Int := none
  year : Option Int := none
  make : Option String := none
  model : Option String := none
  mileage : Option Int := none
deriving DecidableEq, Repr

/-- The structured-records namespace of the bucket: object key to
stored record (object content modelled as the record it serializes). -/
abbrev Store := List (String × Record)

/-- Overwriting insert: both a GCS object upload and a Python dict
assignment (an existing key keeps its position, a new key is appended,
matching dict insertion order). -/
def storeInsert (s : Store) (k : String) (r : Record) : Store :=
  if (s.lookup k).isSome then
    s.map (fun kv => if kv.1 = k then (k, r) else kv)
  else s ++ [(k, r)]

/-! ### Materializer merge (lines 108-116 of materialize-master) -/

/-- One step of the latest-wins fold: records without a usable post_id
are skipped; a first record for a post_id is inserted without any
timestamp resolution (Python's `or` short-circuits); otherwise both
run-ids are resolved and the incoming record replaces the retained one
only on a strictly newer timestamp. -/
def mergeStepE (now : Nat) (m : Store) (r : Record) : Except Unit Store :=
  if r.post_id = "" then .ok m
  else
    match m.lookup r.post_id with
    | none => .ok (storeInsert m r.post_id r)
    | some p => do
        let tr ← run_id_to_dt now r.run_id
        let tp ← run_id_to_dt now p.run_id
        pure (if tp < tr then storeInsert m r.post_id r else m)

/-- The whole merge loop over the enumerated records. -/
def mergeE (now : Nat) (l : List Record) : Except Unit Store :=
  l.foldlM (mergeStepE now) []

/-- Timestamp value of a run-id when resolution succeeds. -/
def dtv (now : Nat) (rid : String) : Nat :=
  ((run_id_to_dt now rid).toOption).getD 0

/-- Exception-free version of the merge step (coincides with
`mergeStepE` when every involved run-id resolves). -/
def mergeStepP (now : Nat) (m : Store) (r : Record) : Store :=
  if r.post_id = "" then m
  else
    match m.lookup r.post_id with
    | none => storeInsert m r.post_id r
    | some p => if dtv now p.run_id < dtv now r.run_id then storeInsert m r.post_id r else m

def mergeP (now : Nat) (l : List Record) : Store :=
  l.foldl (mergeStepP now) []

/-- Per-key view of the merge: fold of the latest-wins choice over the
records carrying one post_id. -/
def keep (now : Nat) (cur : Option Record) (r : Record) : Option Record :=
  match cur with
  | none => some r
  | some p => if dtv now p.run_id < dtv now r.run_id then some r else some p

/-! ### Materializer CSV publication -/

/-- The datasets namespace: destination key to published CSV text. -/
abbrev MStore := List (String × String)

def mstoreInsert (s : MStore) (k v : String) : MStore :=
  if (s.lookup k).isSome then
    s.map (fun kv => if kv.1 = k then (k, v) else kv)
  else s ++ [(k, v)]

def csvNeedsQuote (s : String) : Bool :=
  s.toList.any (fun c => c == ',' || c == '"' || c == '\n' || c == '\r')

def csvEscape (s : String) : String :=
  String.mk (s.toList.foldr (fun c acc => if c == '"' then '"' :: '"' :: acc else c :: acc) [])

/-- csv module QUOTE_MINIMAL rendering of one cell. -/
def csvCell (s : String) : String :=
  if csvNeedsQuote s then "\"" ++ csvEscape s ++ "\"" else s

def optIntCell : Option Int → String
  | none => ""
  | some i => toString i

def optStrCell : Option String → String
  | none => ""
  | some s => s

/-- The stable CSV schema (CSV_COLUMNS) applied to one record;
missing optional fields render as empty cells. -/
def recCells (r : Record) : List String :=
  [r.post_id, r.run_id, r.scraped_at, optIntCell r.price, optIntCell r.year,
   optStrCell r.make, optStrCell r.model, optIntCell r.mileage, r.source_txt]

def csvRow (cells : List String) : String :=
  String.intercalate "," (cells.map csvCell) ++ "\r\n"

def csvHeader : String :=
  csvRow ["post_id", "run_id", "scraped_at", "price", "year", "make", "model",
          "mileage", "source_txt"]

/-- _write_csv content: header then one row per record, in order. -/
def renderCsv (rs : List Record) : String :=
  csvHeader ++ String.join (rs.map (fun r => csvRow (recCells r)))

def masterKey : String := "structured/datasets/listings_master.csv"

/-- Environment of one materialize invocation: configuration, the
bucket listing, and the parsed records found under each run (malformed
JSON units are already silently dropped by the reader, lines 58-64). -/
structure MatEnv where
  bucketName : String
  structuredPrefixes : List String
  recordsFor : String → List Record
  now : Nat

structure JsonPayloadM where
  ok : Bool
  error : Option String := none
  runs_scanned : Option Nat := none
  unique_listings : Option Nat := none
  rows_written : Option Nat := none
  output_csv : Option String := none
deriving DecidableEq, Repr

/-- materialize_http: full scan, latest-wins merge, single-destination
publish; any exception in the body is caught by the surrounding
try/except and reported as a single 500 error result (the error
message text is abstracted). -/
def materialize_http (env : MatEnv) (store : MStore) : (JsonPayloadM × Nat) × MStore :=
  if env.bucketName = "" then
    (({ ok := false, error := some "missing GCS_BUCKET env" }, 500), store)
  else
    let runs := mat_list_run_ids env.structuredPrefixes
    if runs.isEmpty then
      (({ ok := false, error := some "no runs found under structured/" }, 200), store)
    else
      match mergeE env.now ((runs.map env.recordsFor).flatten) with
      | .error _ => (({ ok := false, error := some "ValueError: unhandled" }, 500), store)
      | .ok table =>
          let recs := table.map (fun kv => kv.2)
          (({ ok := true, runs_scanned := some runs.length,
              unique_listings := some table.length,
              rows_written := some recs.length,
              output_csv := some ("gs://" ++ env.bucketName ++ "/" ++ masterKey) }, 200),
           mstoreInsert store masterKey (renderCsv recs))

/-! ### Extractor orchestration (extract_http) -/

/-- Environment of one extract invocation: configuration, bucket
listings, text downloads (which may fail per object), and which
output uploads would fail. -/
structure ExtractEnv where
  bucketName : String
  scrapesPrefixes : List String
  listBlobs : String → List String
  download : String → Except Unit String
  uploadFails : String → Bool
  nowIso : String

/-- The optional JSON request body. -/
structure ExtractBody where
  run_id : Option String := none
  max_files : Int := 0
  overwrite : Bool := false

structure JsonPayloadE where
  ok : Bool
  error : Option String := none
  version : Option String := none
  run_id : Option String := none
  processed_txt : Option Nat := none
  written_jsonl : Option Nat := none
  skipped_existing : Option Nat := none
  errors : Option Nat := none
deriving DecidableEq, Repr

structure Counters where
  processed : Nat := 0
  written : Nat := 0
  skipped : Nat := 0
  errors : Nat := 0
deriving DecidableEq, Repr

def czero : Counters := {}

def cadd (a b : Counters) : Counters :=
  { processed := a.processed + b.processed, written := a.written + b.written,
    skipped := a.skipped + b.skipped, errors := a.errors + b.errors }

def firstNonempty : List (List String) → List String
  | [] => []
  | l :: t => if l.isEmpty then firstNonempty t else l

/-- _txt_objects_for_run: four historical layout candidates tried in
order, first prefix yielding any .txt object wins. -/
def txt_objects_for_run (env : ExtractEnv) (rid : String) : List String :=
  firstNonempty
    ([ "scrapes/run_id=" ++ rid ++ "/txt/", "scrapes/run_id=" ++ rid ++ "/",
       "scrapes/" ++ rid ++ "/txt/", "scrapes/" ++ rid ++ "/" ].map
      (fun pre => (env.listBlobs pre).filter (fun n => strEndsWith n ".txt")))

/-- os.path.basename. -/
def basenameChars (cs : List Char) : List Char :=
  (cs.reverse.takeWhile (fun c => !(c == '/'))).reverse

/-- The stem of os.path.splitext: drop the last dot-extension, except
when the dots are all leading dots of the basename. -/
def stemChars (b : List Char) : List Char :=
  let rev := b.reverse
  let ext := rev.takeWhile (fun c => !(c == '.'))
  if ext.length == rev.length then b
  else
    let before := rev.drop (ext.length + 1)
    if before.all (fun c => c == '.') then b else before.reverse

/-- post_id = os.path.splitext(os.path.basename(name))[0]. -/
def post_idOf (name : String) : String :=
  String.mk (stemChars (basenameChars name.toList))

def outKey (rid pid : String) : String :=
  "structured/run_id=" ++ rid ++ "/jsonl/" ++ pid ++ ".jsonl"

/-- The record written for one input file (identity/provenance fields
merged with the extracted fields). -/
def mkRecord (pid rid scraped src : String) (f : Fields) : Record :=
  { post_id := pid, run_id := rid, scraped_at := scraped, source_txt := src,
    price := f.price, year := f.year, make := f.make, model := f.model,
    mileage := f.mileage }

/-- The store-independent part of processing one file: download and
parse (either may raise), then build the output key and record. -/
def fileAttempt (env : ExtractEnv) (rid scraped : String) (name : String) :
    Except Unit (String × Record) := do
  let text ← env.download name
  let f ← parse_listing text
  let pid := post_idOf name
  pure (outKey rid pid, mkRecord pid rid scraped name f)

def bumpP (c : Counters) : Counters := { c with processed := c.processed + 1 }

/-- The body of the per-file loop: any exception increments the error
counter and processing continues; otherwise skip-if-exists (unless
overwriting) or upload. -/
def stepFile (env : ExtractEnv) (rid scraped : String) (ow : Bool)
    (acc : Store × Counters) (name : String) : Store × Counters :=
  match fileAttempt env rid scraped name with
  | .error _ => (acc.1, bumpP { acc.2 with errors := acc.2.errors + 1 })
  | .ok (key, rec) =>
      if ow = false ∧ (acc.1.lookup key).isSome then
        (acc.1, bumpP { acc.2 with skipped := acc.2.skipped + 1 })
      else if env.uploadFails key then
        (acc.1, bumpP { acc.2 with errors := acc.2.errors + 1 })
      else (storeInsert acc.1 key rec, bumpP { acc.2 with written := acc.2.written + 1 })

/-- body.get("run_id") with Python truthiness: None and "" both mean
"not supplied". -/
def effRunId (body : ExtractBody) : Option String :=
  match body.run_id with
  | some r => if r = "" then none else some r
  | none => none

/-- The run the invocation works on: the supplied one, else the last
(sorted ascending, hence newest) discovered run-id. -/
def chosenRun (env : ExtractEnv) (body : ExtractBody) : Option String :=
  match effRunId body with
  | some r => some r
  | none => (ex_list_run_ids env.scrapesPrefixes).getLast?

/-- txt_blobs after the optional max_files cap (0 = unlimited). -/
def cappedFiles (env : ExtractEnv) (body : ExtractBody) (rid : String) : List String :=
  let fs := txt_objects_for_run env rid
  if 0 < body.max_files then fs.take body.max_files.toNat else fs

/-- extract_http of extractor-per-listing/main.py. -/
def extract_http (env : ExtractEnv) (store : Store) (body : ExtractBody) :
    (JsonPayloadE × Nat) × Store :=
  if env.bucketName = "" then
    (({ ok := false, error := some "missing GCS_BUCKET env" }, 500), store)
  else
    match chosenRun env body with
    | none =>
        (({ ok := false, error := some "no run_ids found under scrapes/" }, 200), store)
    | some rid =>
        let scraped := parse_run_id_as_iso env.nowIso rid
        if txt_objects_for_run env rid = [] then
          (({ ok := false, run_id := some rid,
              error := some "no .txt files found for run" }, 200), store)
        else
          let files := cappedFiles env body rid
          let acc := files.foldl (stepFile env rid scraped body.overwrite) (store, czero)
          (({ ok := true, version := some "extractor-v3-jsonl-flex", run_id := some rid,
              processed_txt := some acc.2.processed, written_jsonl := some acc.2.written,
              skipped_existing := some acc.2.skipped, errors := some acc.2.errors }, 200), acc.1)

/-! ### Store lemmas -/

theorem lookup_cons_store (a : String) (b : Record) (s : Store) (q : String) :
    List.lookup q ((a, b) :: s) = if q = a then some b else List.lookup q s := by
  by_cases h : q = a
  · subst h
    simp [List.lookup]
  · rw [List.lookup, if_neg h, beq_eq_false_iff_ne.mpr h]

theorem lookup_append_store (s t : Store) (q : String) :
    (s ++ t).lookup q = ((s.lookup q).orElse (fun _ => t.lookup q)) := by
  induction s with
  | nil => simp [List.lookup]
  | cons kv s ih =>
      obtain ⟨a, b⟩ := kv
      by_cases h : q = a
      · simp [lookup_cons_store, h]
      · simp [lookup_cons_store, h, ih]

theorem replace_head_eq (a : String) (b r : Record) (k : String) (h : a = k) :
    (if ((a, b) : String × Record).1 = k then (k, r) else (a, b)) = (k, r) :=
  if_pos h

theorem replace_head_ne (a : String) (b r : Record) (k : String) (h : ¬a = k) :
    (if ((a, b) : String × Record).1 = k then (k, r) else (a, b)) = (a, b) :=
  if_neg h

theorem lookup_map_replace_ne (s : Store) (k : String) (r : Record) (q : String)
    (h : q ≠ k) :
    (s.map (fun kv => if kv.1 = k then (k, r) else kv)).lookup q = s.lookup q := by
  induction s with
  | nil => simp
  | cons kv s ih =>
      obtain ⟨a, b⟩ := kv
      by_cases ha : a = k
      · rw [List.map_cons, replace_head_eq a b r k ha, lookup_cons_store,
           lookup_cons_store, if_neg h, if_neg (ha ▸ h), ih]
      · rw [List.map_cons, replace_head_ne a b r k ha, lookup_cons_store,
           lookup_cons_store, ih]

theorem lookup_map_replace_eq (s : Store) (k : String) (r : Record)
    (h : (s.lookup k).isSome) :
    (s.map (fun kv => if kv.1 = k then (k, r) else kv)).lookup k = some r := by
  induction s with
  | nil => simp [List.lookup] at h
  | cons kv s ih =>
      obtain ⟨a, b⟩ := kv
      by_cases ha : a = k
      · rw [List.map_cons, replace_head_eq a b r k ha, lookup_cons_store, if_pos rfl]
      · rw [List.map_cons, replace_head_ne a b r k ha, lookup_cons_store,
           if_neg (Ne.symm ha)]
        rw [lookup_cons_store, if_neg (Ne.symm ha)] at h
        exact ih h

theorem lookup_storeInsert (s : Store) (k : String) (r : Record) (q : String) :
    (storeInsert s k r).lookup q = if q = k then some r else s.lookup q := by
  unfold storeInsert
  by_cases hs : (s.lookup k).isSome
  · rw [if_pos hs]
    by_cases h : q = k
    · subst h
      rw [if_pos rfl, lookup_map_replace_eq s q r hs]
    · rw [if_neg h, lookup_map_replace_ne s k r q h]
  · rw [if_neg hs, lookup_append_store]
    by_cases h : q = k
    · subst h
      rcases ho : s.lookup q with _ | v
      · rw [if_pos rfl]
        show List.lookup q [(q, r)] = some r
        rw [lookup_cons_store, if_pos rfl]
      · rw [ho] at hs
        simp at hs
    · rw [if_neg h]
      rcases ho : s.lookup q with _ | v
      · show List.lookup q [(k, r)] = none
        rw [lookup_cons_store, if_neg h]
        rfl
      · rfl

theorem lookup_mem (s : Store) (q : String) (v : Record) :
    s.lookup q = some v → (q, v) ∈ s := by
  induction s with
  | nil => intro h; simp [List.lookup] at h
  | cons kv s ih =>
      obtain ⟨a, b⟩ := kv
      intro h
      rw [lookup_cons_store] at h
      by_cases ha : q = a
      · rw [if_pos ha] at h
        cases h
        subst ha
        exact List.mem_cons_self _ _
      · rw [if_neg ha] at h
        exact List.mem_cons_of_mem _ (ih h)

theorem lookup_none_not_mem (s : Store) (q : String) :
    s.lookup q = none → ∀ v, (q, v) ∉ s := by
  induction s with
  | nil => intro _ v hv; simp at hv
  | cons kv s ih =>
      obtain ⟨a, b⟩ := kv
      intro h v hv
      rw [lookup_cons_store] at h
      by_cases ha : q = a
      · rw [if_pos ha] at h
        cases h
      · rw [if_neg ha] at h
        rcases List.mem_cons.mp hv with h1 | h1
        · exact ha (congrArg Prod.fst h1)
        · exact ih h v h1

/-- The members of an overwriting insert come from the old store or
are the inserted pair. -/
theorem mem_storeInsert (s : Store) (k : String) (r : Record) :
    ∀ kv ∈ storeInsert s k r, kv ∈ s ∨ kv = (k, r) := by
  intro kv hkv
  unfold storeInsert at hkv
  by_cases hs : (s.lookup k).isSome
  · rw [if_pos hs] at hkv
    rcases List.mem_map.mp hkv with ⟨kv0, hkv0, heq⟩
    by_cases h0 : kv0.1 = k
    · rw [if_pos h0] at heq
      right
      exact heq.symm
    · rw [if_neg h0] at heq
      left
      exact heq ▸ hkv0
  · rw [if_neg hs] at hkv
    rcases List.mem_append.mp hkv with h1 | h1
    · left; exact h1
    · right; simpa using h1

theorem keys_storeInsert_of_isSome (s : Store) (k : String) (r : Record)
    (hs : (s.lookup k).isSome) :
    (storeInsert s k r).map Prod.fst = s.map Prod.fst := by
  unfold storeInsert
  rw [if_pos hs, List.map_map]
  apply List.map_congr_left
  intro kv _
  by_cases h0 : kv.1 = k
  · simp [h0]
  · simp [h0]

theorem keys_storeInsert_of_none (s : Store) (k : String) (r : Record)
    (hs : ¬(s.lookup k).isSome) :
    (storeInsert s k r).map Prod.fst = s.map Prod.fst ++ [k] := by
  unfold storeInsert
  rw [if_neg hs]
  simp

/-! ### Merge lemmas -/

/-- Effect of one pure merge step on the entry of one post_id. -/
theorem lookup_mergeStepP (now : Nat) (m : Store) (r : Record) (pid : String)
    (hpid : pid ≠ "") :
    (mergeStepP now m r).lookup pid =
      if r.post_id = pid then keep now (m.lookup pid) r else m.lookup pid := by
  unfold mergeStepP
  by_cases hz : r.post_id = ""
  · have hne : ¬r.post_id = pid := fun h => hpid (h ▸ hz ▸ rfl)
    rw [if_pos hz, if_neg hne]
  · rw [if_neg hz]
    by_cases hr : r.post_id = pid
    · subst hr
      rcases hm : m.lookup r.post_id with _ | p
      · simp [lookup_storeInsert, keep]
      · by_cases hlt : dtv now p.run_id < dtv now r.run_id
        · simp [hlt, lookup_storeInsert, keep]
        · simp [hlt, keep, hm]
    · rcases hm : m.lookup r.post_id with _ | p
      · simp only [lookup_storeInsert, if_neg hr]
        rw [if_neg (fun h => hr h.symm)]
      · by_cases hlt : dtv now p.run_id < dtv now r.run_id
        · simp only [hlt, if_true, lookup_storeInsert, if_neg hr]
          rw [if_neg (fun h => hr h.symm)]
        · simp [hlt, hr]

/-- Per-key projection of the merge fold. -/
theorem lookup_foldl_mergeStepP (now : Nat) (pid : String) (hpid : pid ≠ "") :
    ∀ (l : List Record) (m : Store),
      (l.foldl (mergeStepP now) m).lookup pid =
        (l.filter (fun r => r.post_id == pid)).foldl (keep now) (m.lookup pid) := by
  intro l
  induction l with
  | nil => intro m; simp
  | cons r t ih =>
      intro m
      rw [List.foldl_cons]
      by_cases hr : r.post_id = pid
      · rw [ih, List.filter_cons_of_pos (by simpa using hr), List.foldl_cons,
           lookup_mergeStepP now m r pid hpid, if_pos hr]
      · rw [ih, List.filter_cons_of_neg (by simpa using hr),
           lookup_mergeStepP now m r pid hpid, if_neg hr]

/-- A keep-fold started from a present entry stays present. -/
theorem keep_fold_isSome (now : Nat) :
    ∀ (fl : List Record) (a : Record),
      ∃ y, fl.foldl (keep now) (some a) = some y := by
  intro fl
  induction fl with
  | nil => intro a; exact ⟨a, rfl⟩
  | cons x t ih =>
      intro a
      rw [List.foldl_cons]
      by_cases h : dtv now a.run_id < dtv now x.run_id
      · simp only [keep, h, if_true]
        exact ih x
      · simp only [keep, h, if_false]
        exact ih a

/-- The value of a keep-fold is the start or a member of the list. -/
theorem keep_fold_mem (now : Nat) :
    ∀ (fl : List Record) (a y : Record),
      fl.foldl (keep now) (some a) = some y → y = a ∨ y ∈ fl := by
  intro fl
  induction fl with
  | nil =>
      intro a y h
      cases h
      exact Or.inl rfl
  | cons x t ih =>
      intro a y h
      rw [List.foldl_cons] at h
      by_cases hx : dtv now a.run_id < dtv now x.run_id
      · simp only [keep, hx, if_true] at h
        rcases ih x y h with h1 | h1
        · exact Or.inr (h1 ▸ List.mem_cons_self _ _)
        · exact Or.inr (List.mem_cons_of_mem _ h1)
      · simp only [keep, hx, if_false] at h
        rcases ih a y h with h1 | h1
        · exact Or.inl h1
        · exact Or.inr (List.mem_cons_of_mem _ h1)

/-- The value of a keep-fold has a timestamp at least that of every
list element and of the start. -/
theorem keep_fold_ge (now : Nat) :
    ∀ (fl : List Record) (a y : Record),
      fl.foldl (keep now) (some a) = some y →
        dtv now a.run_id ≤ dtv now y.run_id ∧
        ∀ x ∈ fl, dtv now x.run_id ≤ dtv now y.run_id := by
  intro fl
  induction fl with
  | nil =>
      intro a y h
      cases h
      exact ⟨le_refl _, by simp⟩
  | cons x t ih =>
      intro a y h
      rw [List.foldl_cons] at h
      by_cases hx : dtv now a.run_id < dtv now x.run_id
      · simp only [keep, hx, if_true] at h
        rcases ih x y h with ⟨h1, h2⟩
        refine ⟨le_of_lt (lt_of_lt_of_le hx h1), ?_⟩
        intro z hz
        rcases List.mem_cons.mp hz with h3 | h3
        · exact h3 ▸ h1
        · exact h2 z h3
      · simp only [keep, hx, if_false] at h
        rcases ih a y h with ⟨h1, h2⟩
        refine ⟨h1, ?_⟩
        intro z hz
        rcases List.mem_cons.mp hz with h3 | h3
        · exact h3 ▸ le_trans (le_of_not_lt hx) h1
        · exact h2 z h3

/-- When every other element is strictly older, the keep-fold retains
exactly the unique maximum. -/
theorem keep_fold_unique (now : Nat) (fl : List Record) (r : Record)
    (hr : r ∈ fl)
    (hmax : ∀ x ∈ fl, x ≠ r → dtv now x.run_id < dtv now r.run_id) :
    fl.foldl (keep now) none = some r := by
  cases fl with
  | nil => cases hr
  | cons z t =>
      rw [List.foldl_cons]
      show t.foldl (keep now) (some z) = some r
      rcases keep_fold_isSome now t z with ⟨y, hy⟩
      rcases keep_fold_ge now t z y hy with ⟨h1, h2⟩
      have hyin : y ∈ z :: t := by
        rcases keep_fold_mem now t z y hy with h3 | h3
        · exact h3 ▸ List.mem_cons_self _ _
        · exact List.mem_cons_of_mem _ h3
      have hry : dtv now r.run_id ≤ dtv now y.run_id := by
        rcases List.mem_cons.mp hr with h3 | h3
        · exact h3 ▸ h1
        · exact h2 r h3
      by_cases hyr : y = r
      · exact hyr ▸ hy
      · exact absurd (lt_of_lt_of_le (hmax y hyin hyr) hry) (lt_irrefl _)

/-- If every element is at most the start, the keep-fold keeps the
start (ties never replace). -/
theorem keep_fold_stays (now : Nat) :
    ∀ (fl : List Record) (a : Record),
      (∀ x ∈ fl, dtv now x.run_id ≤ dtv now a.run_id) →
      fl.foldl (keep now) (some a) = some a := by
  intro fl
  induction fl with
  | nil => intro a _; rfl
  | cons x t ih =>
      intro a h
      rw [List.foldl_cons]
      have hx : ¬dtv now a.run_id < dtv now x.run_id :=
        not_lt_of_le (h x (List.mem_cons_self _ _))
      simp only [keep, hx, if_false]
      exact ih a (fun z hz => h z (List.mem_cons_of_mem _ hz))

/-- Whether an Except computation succeeded. -/
def isOkE (e : Except Unit Nat) : Bool :=
  match e with
  | .ok _ => true
  | .error _ => false

theorem run_id_to_dt_ok_eq (now : Nat) (rid : String)
    (h : isOkE (run_id_to_dt now rid) = true) :
    run_id_to_dt now rid = .ok (dtv now rid) := by
  rcases he : run_id_to_dt now rid with e | t
  · rw [he] at h
    simp [isOkE] at h
  · simp [dtv, he, Except.toOption]

/-- On success-only inputs the exceptional merge step equals the pure
one. -/
theorem mergeStepE_eq (now : Nat) (m : Store) (r : Record)
    (hr : isOkE (run_id_to_dt now r.run_id) = true)
    (hm : ∀ kv ∈ m, isOkE (run_id_to_dt now kv.2.run_id) = true) :
    mergeStepE now m r = .ok (mergeStepP now m r) := by
  unfold mergeStepE mergeStepP
  by_cases hz : r.post_id = ""
  · simp [hz]
  · simp only [hz, if_false]
    rcases hml : m.lookup r.post_id with _ | p
    · rfl
    · have hp : isOkE (run_id_to_dt now p.run_id) = true :=
        hm (r.post_id, p) (lookup_mem m r.post_id p hml)
      show (do
          let tr ← run_id_to_dt now r.run_id
          let tp ← run_id_to_dt now p.run_id
          pure (if tp < tr then storeInsert m r.post_id r else m) : Except Unit Store) =
        Except.ok (if dtv now p.run_id < dtv now r.run_id then storeInsert m r.post_id r else m)
      rw [run_id_to_dt_ok_eq now r.run_id hr, run_id_to_dt_ok_eq now p.run_id hp]
      rfl

/-- The values stored by a pure merge step come from the old mapping
or are the incoming record. -/
theorem mergeStepP_values (now : Nat) (m : Store) (r : Record) :
    ∀ kv ∈ mergeStepP now m r, kv ∈ m ∨ kv.2 = r := by
  intro kv hkv
  unfold mergeStepP at hkv
  by_cases hz : r.post_id = ""
  · rw [if_pos hz] at hkv
    exact Or.inl hkv
  · rw [if_neg hz] at hkv
    rcases hml : m.lookup r.post_id with _ | p <;> rw [hml] at hkv
    · rcases mem_storeInsert m r.post_id r kv hkv with h | h
      · exact Or.inl h
      · exact Or.inr (congrArg Prod.snd h)
    · have hkv2 : kv ∈ (if dtv now p.run_id < dtv now r.run_id
          then storeInsert m r.post_id r else m) := hkv
      by_cases hlt : dtv now p.run_id < dtv now r.run_id
      · rw [if_pos hlt] at hkv2
        rcases mem_storeInsert m r.post_id r kv hkv2 with h | h
        · exact Or.inl h
        · exact Or.inr (congrArg Prod.snd h)
      · rw [if_neg hlt] at hkv2
        exact Or.inl hkv2

/-- On success-only inputs the whole merge equals the pure fold. -/
theorem mergeE_fold_eq (now : Nat) :
    ∀ (l : List Record) (m : Store),
      (∀ r ∈ l, isOkE (run_id_to_dt now r.run_id) = true) →
      (∀ kv ∈ m, isOkE (run_id_to_dt now kv.2.run_id) = true) →
      l.foldlM (mergeStepE now) m = .ok (l.foldl (mergeStepP now) m) := by
  intro l
  induction l with
  | nil => intro m _ _; rfl
  | cons r t ih =>
      intro m hl hm
      have h1 : mergeStepE now m r = .ok (mergeStepP now m r) :=
        mergeStepE_eq now m r (hl r (List.mem_cons_self _ _)) hm
      have h2 : ∀ kv ∈ mergeStepP now m r, isOkE (run_id_to_dt now kv.2.run_id) = true := by
        intro kv hkv
        rcases mergeStepP_values now m r kv hkv with h | h
        · exact hm kv h
        · rw [h]
          exact hl r (List.mem_cons_self _ _)
      calc (r :: t).foldlM (mergeStepE now) m
          = mergeStepE now m r >>= fun m2 => t.foldlM (mergeStepE now) m2 := by
            simp [List.foldlM]
        _ = t.foldlM (mergeStepE now) (mergeStepP now m r) := by rw [h1]; rfl
        _ = .ok (t.foldl (mergeStepP now) (mergeStepP now m r)) :=
            ih (mergeStepP now m r) (fun x hx => hl x (List.mem_cons_of_mem _ hx)) h2
        _ = .ok ((r :: t).foldl (mergeStepP now) m) := by rw [List.foldl_cons]

def storeKeys (s : Store) : List String := s.map Prod.fst

theorem lookup_none_not_key (m : Store) (q : String)
    (h : m.lookup q = none) : q ∉ storeKeys m := by
  intro hq
  rcases List.mem_map.mp hq with ⟨kv, hkv, hfst⟩
  obtain ⟨a, b⟩ := kv
  cases hfst
  exact lookup_none_not_mem m a h b hkv

theorem mergeStepP_keys_nodup (now : Nat) (m : Store) (r : Record)
    (h : (storeKeys m).Nodup) : (storeKeys (mergeStepP now m r)).Nodup := by
  unfold mergeStepP
  by_cases hz : r.post_id = ""
  · rw [if_pos hz]
    exact h
  · rw [if_neg hz]
    rcases hml : m.lookup r.post_id with _ | p
    · have hs : ¬(m.lookup r.post_id).isSome := by simp [hml]
      show (storeKeys (storeInsert m r.post_id r)).Nodup
      unfold storeKeys
      rw [keys_storeInsert_of_none m r.post_id r hs]
      rw [List.nodup_append]
      refine ⟨h, List.nodup_singleton _, ?_⟩
      intro a ha hb
      rcases List.mem_singleton.mp hb with rfl
      exact lookup_none_not_key m r.post_id hml ha
    · show (storeKeys (if dtv now p.run_id < dtv now r.run_id
          then storeInsert m r.post_id r else m)).Nodup
      by_cases hlt : dtv now p.run_id < dtv now r.run_id
      · rw [if_pos hlt]
        have hs : (m.lookup r.post_id).isSome := by simp [hml]
        unfold storeKeys
        rw [keys_storeInsert_of_isSome m r.post_id r hs]
        exact h
      · rw [if_neg hlt]
        exact h

theorem mergeP_keys_nodup (now : Nat) (l : List Record) :
    (storeKeys (mergeP now l)).Nodup := by
  unfold mergeP
  have : ∀ (t : List Record) (m : Store), (storeKeys m).Nodup →
      (storeKeys (t.foldl (mergeStepP now) m)).Nodup := by
    intro t
    induction t with
    | nil => intro m hm; exact hm
    | cons r t ih =>
        intro m hm
        rw [List.foldl_cons]
        exact ih _ (mergeStepP_keys_nodup now m r hm)
  exact this l [] (by simp [storeKeys])

/-- The merged mapping has an entry for a (usable) post_id exactly when
some record carries it. -/
theorem mergeP_lookup_isSome_iff (now : Nat) (l : List Record) (q : String)
    (hq : q ≠ "") :
    ((mergeP now l).lookup q).isSome ↔ ∃ x ∈ l, x.post_id = q := by
  unfold mergeP
  rw [lookup_foldl_mergeStepP now q hq l []]
  have hnil : (List.lookup q ([] : Store)) = none := rfl
  rw [hnil]
  constructor
  · intro h
    rcases hf : l.filter (fun r => r.post_id == q) with _ | ⟨z, t⟩
    · rw [hf] at h
      simp at h
    · have hz : z ∈ l.filter (fun r => r.post_id == q) := by
        rw [hf]
        exact List.mem_cons_self _ _
      rcases List.mem_filter.mp hz with ⟨hzl, hzq⟩
      exact ⟨z, hzl, by simpa using hzq⟩
  · intro ⟨x, hx, hxq⟩
    rcases hf : l.filter (fun r => r.post_id == q) with _ | ⟨z, t⟩
    · have := List.filter_eq_nil_iff.mp hf x hx
      simp [hxq] at this
    · rw [hf, List.foldl_cons]
      show (t.foldl (keep now) (keep now none z)).isSome
      rcases keep_fold_isSome now t z with ⟨y, hy⟩
      rw [show keep now none z = some z from rfl, hy]
      rfl

/-- mergeE on success-only records equals the pure merge. -/
theorem mergeE_ok (now : Nat) (l : List Record)
    (hok : ∀ x ∈ l, isOkE (run_id_to_dt now x.run_id) = true) :
    mergeE now l = .ok (mergeP now l) :=
  mergeE_fold_eq now l [] hok (by intro kv hkv; cases hkv)

/-- The retained entry of a post_id is the unique strict maximum. -/
theorem mergeP_lookup_unique_max (now : Nat) (l : List Record) (pid : String)
    (hpid : pid ≠ "") (r : Record) (hr : r ∈ l) (hrpid : r.post_id = pid)
    (hmax : ∀ x ∈ l, x.post_id = pid → x ≠ r → dtv now x.run_id < dtv now r.run_id) :
    (mergeP now l).lookup pid = some r := by
  unfold mergeP
  rw [lookup_foldl_mergeStepP now pid hpid l []]
  have hnil : (List.lookup pid ([] : Store)) = none := rfl
  rw [hnil]
  apply keep_fold_unique now _ r
  · exact List.mem_filter.mpr ⟨hr, by simpa using hrpid⟩
  · intro x hx hxr
    rcases List.mem_filter.mp hx with ⟨hxl, hxq⟩
    exact hmax x hxl (by simpa using hxq) hxr

/-- Sample records for post-id X in two runs resolving to the same or
different instants. -/
def recPlainX : Record :=
  { post_id := "X", run_id := "20250101000000", scraped_at := "", source_txt := "",
    price := some 100 }

def recIsoX : Record :=
  { post_id := "X", run_id := "20250101T000000Z", scraped_at := "", source_txt := "",
    price := some 200 }

def recJunX : Record :=
  { post_id := "X", run_id := "20250601000000", scraped_at := "", source_txt := "",
    price := some 200 }

/-- C1: over any collection of structured records, the materializer's
merge keeps exactly one record per distinct (usable) post_id; the
retained record for a post_id is the one with the strictly greatest
resolved run-id timestamp whenever that maximum is unique, and it is
the same under any enumeration order of the records (hence of the
runs); one merge step replaces the retained record only when the
incoming timestamp is strictly newer. -/
theorem C1_merge_latest_wins (now : Nat) (l l2 : List Record) (hperm : l.Perm l2)
    (hok : ∀ x ∈ l, isOkE (run_id_to_dt now x.run_id) = true)
    (pid : String) (hpid : pid ≠ "") (r : Record) (hr : r ∈ l) (hrpid : r.post_id = pid)
    (hmax : ∀ x ∈ l, x.post_id = pid → x ≠ r → dtv now x.run_id < dtv now r.run_id) :
    ∃ m m2, mergeE now l = .ok m ∧ mergeE now l2 = .ok m2 ∧
      (storeKeys m).Nodup ∧
      (∀ q, q ≠ "" → ((m.lookup q).isSome ↔ ∃ x ∈ l, x.post_id = q)) ∧
      m.lookup pid = some r ∧ m2.lookup pid = some r ∧
      (∀ (mm mm2 : Store) (x p : Record), mergeStepE now mm x = .ok mm2 →
        mm.lookup x.post_id = some p →
        ¬ dtv now p.run_id < dtv now x.run_id →
        mm2.lookup x.post_id = some p) := by
  have hok2 : ∀ x ∈ l2, isOkE (run_id_to_dt now x.run_id) = true :=
    fun x hx => hok x (hperm.mem_iff.mpr hx)
  refine ⟨mergeP now l, mergeP now l2, mergeE_ok now l hok, mergeE_ok now l2 hok2,
    mergeP_keys_nodup now l,
    fun q hq => mergeP_lookup_isSome_iff now l q hq,
    mergeP_lookup_unique_max now l pid hpid r hr hrpid hmax,
    mergeP_lookup_unique_max now l2 pid hpid r (hperm.mem_iff.mp hr) hrpid
      (fun x hx h1 h2 => hmax x (hperm.mem_iff.mpr hx) h1 h2), ?_⟩
  intro mm mm2 x p hstep hlk hnlt
  unfold mergeStepE at hstep
  by_cases hz : x.post_id = ""
  · rw [if_pos hz] at hstep
    cases hstep
    exact hlk
  · rw [if_neg hz, hlk] at hstep
    have hstep2 : (do
        let tr ← run_id_to_dt now x.run_id
        let tp ← run_id_to_dt now p.run_id
        pure (if tp < tr then storeInsert mm x.post_id x else mm) : Except Unit Store) =
          .ok mm2 := hstep
    rcases he1 : run_id_to_dt now x.run_id with e | tr
    · rw [he1] at hstep2
      cases hstep2
    · rcases he2 : run_id_to_dt now p.run_id with e | tp
      · rw [he1, he2] at hstep2
        cases hstep2
      · rw [he1, he2] at hstep2
        have htr : dtv now x.run_id = tr := by simp [dtv, he1, Except.toOption]
        have htp : dtv now p.run_id = tp := by simp [dtv, he2, Except.toOption]
        have hnlt2 : ¬ tp < tr := by rw [← htr, ← htp]; exact hnlt
        have : mm2 = mm := by
          have := hstep2
          simp only [bind, Except.bind, pure, Except.pure] at this
          rw [if_neg hnlt2] at this
          cases this
          rfl
        rw [this]
        exact hlk

/-- Witness for C1 at a concrete two-run collection. -/
theorem C1_merge_latest_wins_witness :
    ∃ m m2, mergeE 0 [recPlainX, recJunX] = .ok m ∧
      mergeE 0 [recJunX, recPlainX] = .ok m2 ∧
      (storeKeys m).Nodup ∧
      (∀ q, q ≠ "" → ((m.lookup q).isSome ↔ ∃ x ∈ [recPlainX, recJunX], x.post_id = q)) ∧
      m.lookup "X" = some recJunX ∧ m2.lookup "X" = some recJunX ∧
      (∀ (mm mm2 : Store) (x p : Record), mergeStepE 0 mm x = .ok mm2 →
        mm.lookup x.post_id = some p →
        ¬ dtv 0 p.run_id < dtv 0 x.run_id →
        mm2.lookup x.post_id = some p) :=
  C1_merge_latest_wins 0 [recPlainX, recJunX] [recJunX, recPlainX]
    (List.Perm.swap recJunX recPlainX [])
    (by decide) "X" (by decide) recJunX (by simp) rfl (by decide)

/-- C9 (implicit): on equal resolved timestamps the merge keeps the
record seen first in enumeration order — replacement needs a strictly
greater timestamp — so with the runs enumerated in ascending sorted
order, the first-seen record under the earliest-sorting of the equally
timestamped run-ids wins; concretely, the record of the plain run-id
20250101000000 (which sorts before 20250101T000000Z and resolves to
the same instant) is the one retained. -/
theorem C9_tie_break_first_wins (now : Nat) (l : List Record)
    (hok : ∀ x ∈ l, isOkE (run_id_to_dt now x.run_id) = true)
    (pid : String) (hpid : pid ≠ "") (l1 l2 : List Record) (r : Record)
    (hsplit : l = l1 ++ r :: l2) (hrpid : r.post_id = pid)
    (hfirst : ∀ x ∈ l1, x.post_id ≠ pid)
    (hle : ∀ x ∈ l, x.post_id = pid → dtv now x.run_id ≤ dtv now r.run_id) :
    (∃ m, mergeE now l = .ok m ∧ m.lookup pid = some r) ∧
      mergeE 0 [recPlainX, recIsoX] = .ok [("X", recPlainX)] ∧
      dtv 0 recPlainX.run_id = dtv 0 recIsoX.run_id ∧
      List.insertionSort (fun a b => pyLe a b = true) [recIsoX.run_id, recPlainX.run_id] =
        [recPlainX.run_id, recIsoX.run_id] := by
  refine ⟨⟨mergeP now l, mergeE_ok now l hok, ?_⟩, ?_, ?_, ?_⟩
  · unfold mergeP
    rw [lookup_foldl_mergeStepP now pid hpid l []]
    have hnil : (List.lookup pid ([] : Store)) = none := rfl
    rw [hnil, hsplit, List.filter_append]
    have h1 : l1.filter (fun x => x.post_id == pid) = [] := by
      apply List.filter_eq_nil_iff.mpr
      intro x hx
      simpa using hfirst x hx
    have h2 : (r :: l2).filter (fun x => x.post_id == pid) =
        r :: l2.filter (fun x => x.post_id == pid) := by
      rw [List.filter_cons_of_pos (by simpa using hrpid)]
    rw [h1, h2, List.nil_append, List.foldl_cons]
    show (l2.filter (fun x => x.post_id == pid)).foldl (keep now) (some r) = some r
    apply keep_fold_stays
    intro x hx
    rcases List.mem_filter.mp hx with ⟨hxl, hxq⟩
    exact hle x (hsplit ▸ List.mem_append.mpr (Or.inr (List.mem_cons_of_mem _ hxl)))
      (by simpa using hxq)
  · rfl
  · rfl
  · decide

/-- Witness for C9 at a concrete equal-timestamp collection. -/
theorem C9_tie_break_first_wins_witness :
    ((∃ m, mergeE 0 [recPlainX, recIsoX] = .ok m ∧ m.lookup "X" = some recPlainX) ∧
      mergeE 0 [recPlainX, recIsoX] = .ok [("X", recPlainX)] ∧
      dtv 0 recPlainX.run_id = dtv 0 recIsoX.run_id ∧
      List.insertionSort (fun a b => pyLe a b = true) [recIsoX.run_id, recPlainX.run_id] =
        [recPlainX.run_id, recIsoX.run_id]) :=
  C9_tie_break_first_wins 0 [recPlainX, recIsoX] (by decide) "X" (by decide)
    [] [recIsoX] recPlainX rfl rfl (by intro x hx; cases hx) (by decide)

/-- C7 (counterexample): a bare 14-digit subdirectory name matches the
accepted pattern after the (absent) label is stripped, and the
extractor accepts it, but the materializer's discovery rejects it
because it requires the `run_id=` label — so acceptance is not
"iff the stripped candidate matches a pattern" for both functions. -/
theorem C7_counterexample :
    matchPlain (stripRunIdLabel (tailOf "structured/20250101000000/")) = true ∧
    mat_list_run_ids ["structured/20250101000000/"] = [] ∧
    ex_list_run_ids ["scrapes/20250101000000/"] = ["20250101000000"] := by
  refine ⟨by decide, by decide, by decide⟩

/-- C7 (amended): the extractor's discovery accepts a subdirectory name
iff, after stripping the optional run_id= label, one of the two run-id
patterns matches; the materializer's discovery accepts only
run_id=-labelled names, applying the same pattern test to the
label-stripped candidate; both return the accepted run-ids sorted
ascending by string value, and an empty sequence when nothing is
accepted. -/
theorem C7_run_id_resolver_amended :
    ∀ (ps : List String),
      (ex_list_run_ids ps).Sorted (fun a b => pyLe a b = true) ∧
      (mat_list_run_ids ps).Sorted (fun a b => pyLe a b = true) ∧
      (∀ p c, exAccept p = some c ↔
        (c = stripRunIdLabel (tailOf p) ∧ (matchISO c || matchPlain c) = true)) ∧
      (∀ p c, matAccept p = some c ↔
        (strStartsWith (tailOf p) "run_id=" = true ∧ c = strDrop (tailOf p) 7 ∧
          (matchISO c || matchPlain c) = true)) ∧
      (∀ s, s ∈ ex_list_run_ids ps ↔ ∃ p ∈ ps, exAccept p = some s) ∧
      (∀ s, s ∈ mat_list_run_ids ps ↔ ∃ p ∈ ps, matAccept p = some s) ∧
      ((∀ p ∈ ps, exAccept p = none) → ex_list_run_ids ps = []) ∧
      ((∀ p ∈ ps, matAccept p = none) → mat_list_run_ids ps = []) := by
  intro ps
  refine ⟨List.sorted_insertionSort _ _, List.sorted_insertionSort _ _, ?_, ?_, ?_, ?_, ?_, ?_⟩
  · intro p c
    unfold exAccept
    by_cases h : (matchISO (stripRunIdLabel (tailOf p)) ||
        matchPlain (stripRunIdLabel (tailOf p))) = true
    · rw [if_pos h]
      constructor
      · intro hc
        cases hc
        exact ⟨rfl, h⟩
      · intro ⟨hc, _⟩
        rw [hc]
    · rw [if_neg h]
      constructor
      · intro hc
        cases hc
      · intro ⟨hc, hm⟩
        exact absurd (hc ▸ hm) h
  · intro p c
    unfold matAccept
    by_cases hs : strStartsWith (tailOf p) "run_id=" = true
    · rw [if_pos hs]
      by_cases h : (matchISO (strDrop (tailOf p) 7) || matchPlain (strDrop (tailOf p) 7)) = true
      · rw [if_pos h]
        constructor
        · intro hc
          cases hc
          exact ⟨hs, rfl, h⟩
        · intro ⟨_, hc, _⟩
          rw [hc]
      · rw [if_neg h]
        constructor
        · intro hc
          cases hc
        · intro ⟨_, hc, hm⟩
          exact absurd (hc ▸ hm) h
    · rw [if_neg hs]
      constructor
      · intro hc
        cases hc
      · intro ⟨hc, _, _⟩
        exact absurd hc hs
  · intro s
    unfold ex_list_run_ids
    rw [(List.perm_insertionSort _ _).mem_iff, List.mem_filterMap]
  · intro s
    unfold mat_list_run_ids
    rw [(List.perm_insertionSort _ _).mem_iff, List.mem_filterMap]
  · intro h
    unfold ex_list_run_ids
    rw [List.filterMap_eq_nil_iff.mpr h]
    rfl
  · intro h
    unfold mat_list_run_ids
    rw [List.filterMap_eq_nil_iff.mpr h]
    rfl

/-- Witness for C7's amended statement: the no-match hypothesis is
discharged at a concrete listing. -/
theorem C7_run_id_resolver_amended_witness :
    ex_list_run_ids ["structured/datasets/"] = [] :=
  (C7_run_id_resolver_amended ["structured/datasets/"]).2.2.2.2.2.2.1 (by decide)

/-! ### Claims C3, C4: the field extractor -/

/-- A listing whose mileage token is a 401-digit number: float()
overflows to inf and int(inf * 1000) raises OverflowError, which the
m2 handler's `except ValueError` does not catch. -/
def hugeMileageText : String :=
  String.mk ('1' :: (List.replicate 400 '0' ++ ['k', ' ', 'm', 'i']))

set_option maxRecDepth 100000 in
/-- C3 (code bug): parse_listing is NOT total — on a huge "<n>k mi"
mileage token the m2 handler raises an uncaught OverflowError
(int(float(g)*1000) with float(g) = inf; only ValueError is caught),
contradicting the documented contract that extraction never raises. -/
theorem C3_parse_listing_raises_on_overflow :
    parse_listing hugeMileageText = .error () := by
  rfl

/-- C4 (code bug): on the spec's canonical example the code extracts
price 12500, year 2015, make Honda, model Accord — but mileage 0, not
45000: m3's `(\d{1,3}(?:[,\d]{3})*)` cannot consume ",000" after "45"
(its star only takes 3-character chunks), so the leftmost match is
"000 miles" and int("000") = 0.  The other examples behave as the
claim states. -/
theorem C4_extraction_examples :
    parse_listing "2015 Honda Accord, $12,500, 45,000 miles" =
      .ok { price := some 12500, year := some 2015, make := some "Honda",
            model := some "Accord", mileage := some 0 } ∧
    parse_listing "mileage: 102,340" = .ok { mileage := some 102340 } ∧
    parse_listing "low miles, 30k mi" = .ok { mileage := some 30000 } ∧
    parse_listing "no dollars 1850 here" = .ok { } := by
  refine ⟨rfl, rfl, rfl, rfl⟩

/-! ### Claim C2: no-data reporting -/

def emptyExtractEnv : ExtractEnv :=
  { bucketName := "b", scrapesPrefixes := [], listBlobs := fun _ => [],
    download := fun _ => .error (), uploadFails := fun _ => false, nowIso := "now" }

def emptyMatEnv : MatEnv :=
  { bucketName := "b", structuredPrefixes := [], recordsFor := fun _ => [], now := 0 }

/-- C2 (counterexample): on a no-data input (no runs discovered) the
returned payload does NOT indicate success: ok is false and an error
message is set (only the HTTP status, 200, is non-error). -/
theorem C2_counterexample :
    (extract_http emptyExtractEnv [] {}).1.1.ok = false ∧
    (extract_http emptyExtractEnv [] {}).1.1.error =
      some "no run_ids found under scrapes/" ∧
    (extract_http emptyExtractEnv [] {}).1.2 = 200 :=
  ⟨rfl, rfl, rfl⟩

/-- C2 (amended): every no-data condition — no run-ids discovered when
none was supplied, no text files for the chosen run, or an empty
structured namespace at materialize — returns HTTP status 200 (unlike
the 500 used for configuration errors and materialize faults) with a
payload whose ok flag is false and which carries an error message, and
leaves the store untouched. -/
theorem C2_no_data_reporting_amended (eenv : ExtractEnv) (estore : Store)
    (body : ExtractBody) (menv : MatEnv) (mstore : MStore) :
    (eenv.bucketName ≠ "" → effRunId body = none →
      ex_list_run_ids eenv.scrapesPrefixes = [] →
      extract_http eenv estore body =
        (({ ok := false, error := some "no run_ids found under scrapes/" }, 200), estore)) ∧
    (eenv.bucketName ≠ "" → ∀ rid, chosenRun eenv body = some rid →
      txt_objects_for_run eenv rid = [] →
      extract_http eenv estore body =
        (({ ok := false, run_id := some rid,
            error := some "no .txt files found for run" }, 200), estore)) ∧
    (menv.bucketName ≠ "" → mat_list_run_ids menv.structuredPrefixes = [] →
      materialize_http menv mstore =
        (({ ok := false, error := some "no runs found under structured/" }, 200), mstore)) := by
  refine ⟨?_, ?_, ?_⟩
  · intro hb he hruns
    unfold extract_http
    rw [if_neg hb]
    have hc : chosenRun eenv body = none := by
      unfold chosenRun
      rw [he, hruns]
      rfl
    rw [hc]
  · intro hb rid hc hfiles
    unfold extract_http
    rw [if_neg hb]
    simp [hc, hfiles]
  · intro hb hruns
    unfold materialize_http
    rw [if_neg hb]
    simp [hruns]

/-- Witness for C2's amended statement at a concrete empty namespace. -/
theorem C2_no_data_reporting_amended_witness :
    extract_http emptyExtractEnv [] {} =
      (({ ok := false, error := some "no run_ids found under scrapes/" }, 200), []) :=
  (C2_no_data_reporting_amended emptyExtractEnv [] {} emptyMatEnv []).1
    (by decide) rfl rfl

/-! ### Extractor loop lemmas -/

theorem cadd_czero (c : Counters) : cadd c czero = c := by
  simp [cadd, czero]

theorem cadd_assoc (a b c : Counters) : cadd (cadd a b) c = cadd a (cadd b c) := by
  simp [cadd, Nat.add_assoc]

/-- One loop step, decomposed by the outcome of the store-independent
attempt and the store tests. -/
theorem stepFile_eq_error (env : ExtractEnv) (rid scraped : String) (ow : Bool)
    (acc : Store × Counters) (name : String)
    (h : fileAttempt env rid scraped name = .error ()) :
    stepFile env rid scraped ow acc name =
      (acc.1, bumpP { acc.2 with errors := acc.2.errors + 1 }) := by
  unfold stepFile
  simp only [h]

theorem stepFile_eq_skip (env : ExtractEnv) (rid scraped : String) (ow : Bool)
    (acc : Store × Counters) (name key : String) (rec : Record)
    (h : fileAttempt env rid scraped name = .ok (key, rec))
    (hex : ow = false ∧ (acc.1.lookup key).isSome = true) :
    stepFile env rid scraped ow acc name =
      (acc.1, bumpP { acc.2 with skipped := acc.2.skipped + 1 }) := by
  unfold stepFile
  simp only [h]
  rw [if_pos hex]

theorem stepFile_eq_upload_fail (env : ExtractEnv) (rid scraped : String) (ow : Bool)
    (acc : Store × Counters) (name key : String) (rec : Record)
    (h : fileAttempt env rid scraped name = .ok (key, rec))
    (hex : ¬(ow = false ∧ (acc.1.lookup key).isSome = true))
    (hup : env.uploadFails key = true) :
    stepFile env rid scraped ow acc name =
      (acc.1, bumpP { acc.2 with errors := acc.2.errors + 1 }) := by
  unfold stepFile
  simp only [h]
  rw [if_neg hex, hup]
  simp

theorem stepFile_eq_write (env : ExtractEnv) (rid scraped : String) (ow : Bool)
    (acc : Store × Counters) (name key : String) (rec : Record)
    (h : fileAttempt env rid scraped name = .ok (key, rec))
    (hex : ¬(ow = false ∧ (acc.1.lookup key).isSome = true))
    (hup : env.uploadFails key = false) :
    stepFile env rid scraped ow acc name =
      (storeInsert acc.1 key rec, bumpP { acc.2 with written := acc.2.written + 1 }) := by
  unfold stepFile
  simp only [h]
  rw [if_neg hex, hup]
  simp

/-- The counter part of one step is a one-unit bump independent of the
incoming counters, and the store part ignores them. -/
theorem stepFile_shift (env : ExtractEnv) (rid scraped : String) (ow : Bool)
    (acc : Store × Counters) (name : String) :
    stepFile env rid scraped ow acc name =
      ((stepFile env rid scraped ow (acc.1, czero) name).1,
       cadd acc.2 (stepFile env rid scraped ow (acc.1, czero) name).2) := by
  rcases ha : fileAttempt env rid scraped name with e | kr
  · cases e
    rw [stepFile_eq_error env rid scraped ow acc name ha,
       stepFile_eq_error env rid scraped ow (acc.1, czero) name ha]
    simp [cadd, czero, bumpP]
  · obtain ⟨key, rec⟩ := kr
    by_cases hex : ow = false ∧ ((acc.1).lookup key).isSome = true
    · rw [stepFile_eq_skip env rid scraped ow acc name key rec ha hex,
         stepFile_eq_skip env rid scraped ow (acc.1, czero) name key rec ha hex]
      simp [cadd, czero, bumpP]
    · by_cases hup : env.uploadFails key = true
      · rw [stepFile_eq_upload_fail env rid scraped ow acc name key rec ha hex hup,
           stepFile_eq_upload_fail env rid scraped ow (acc.1, czero) name key rec ha hex hup]
        simp [cadd, czero, bumpP]
      · have hup2 : env.uploadFails key = false := by
          rcases hb : env.uploadFails key with _ | _
          · rfl
          · exact absurd hb hup
        rw [stepFile_eq_write env rid scraped ow acc name key rec ha hex hup2,
           stepFile_eq_write env rid scraped ow (acc.1, czero) name key rec ha hex hup2]
        simp [cadd, czero, bumpP]

/-- Counter accumulation commutes with the whole fold. -/
theorem foldl_stepFile_shift (env : ExtractEnv) (rid scraped : String) (ow : Bool) :
    ∀ (files : List String) (acc : Store × Counters),
      files.foldl (stepFile env rid scraped ow) acc =
        ((files.foldl (stepFile env rid scraped ow) (acc.1, czero)).1,
         cadd acc.2 (files.foldl (stepFile env rid scraped ow) (acc.1, czero)).2) := by
  intro files
  induction files with
  | nil => intro acc; simp [cadd_czero]
  | cons f fs ih =>
      intro acc
      rw [List.foldl_cons, stepFile_shift env rid scraped ow acc f,
         ih ((stepFile env rid scraped ow (acc.1, czero) f).1,
             cadd acc.2 (stepFile env rid scraped ow (acc.1, czero) f).2),
         List.foldl_cons,
         ih (stepFile env rid scraped ow (acc.1, czero) f)]
      simp [cadd_assoc]

/-- Each processed file bumps `processed` and exactly one of the other
three counters. -/
theorem stepFile_counts (env : ExtractEnv) (rid scraped : String) (ow : Bool)
    (acc : Store × Counters) (name : String) :
    (stepFile env rid scraped ow acc name).2.processed = acc.2.processed + 1 ∧
    (stepFile env rid scraped ow acc name).2.written +
      (stepFile env rid scraped ow acc name).2.skipped +
      (stepFile env rid scraped ow acc name).2.errors =
      acc.2.written + acc.2.skipped + acc.2.errors + 1 := by
  rcases ha : fileAttempt env rid scraped name with e | kr
  · cases e
    rw [stepFile_eq_error env rid scraped ow acc name ha]
    simp [bumpP]
    omega
  · obtain ⟨key, rec⟩ := kr
    by_cases hex : ow = false ∧ ((acc.1).lookup key).isSome = true
    · rw [stepFile_eq_skip env rid scraped ow acc name key rec ha hex]
      simp [bumpP]
      omega
    · by_cases hup : env.uploadFails key = true
      · rw [stepFile_eq_upload_fail env rid scraped ow acc name key rec ha hex hup]
        simp [bumpP]
        omega
      · have hup2 : env.uploadFails key = false := by
          rcases hb : env.uploadFails key with _ | _
          · rfl
          · exact absurd hb hup
        rw [stepFile_eq_write env rid scraped ow acc name key rec ha hex hup2]
        simp [bumpP]
        omega

/-- Loop counters: processed counts every attempted file, and splits
exactly into written + skipped + errors. -/
theorem foldl_stepFile_counts (env : ExtractEnv) (rid scraped : String) (ow : Bool) :
    ∀ (files : List String) (acc : Store × Counters),
      (files.foldl (stepFile env rid scraped ow) acc).2.processed =
        acc.2.processed + files.length ∧
      (files.foldl (stepFile env rid scraped ow) acc).2.written +
        (files.foldl (stepFile env rid scraped ow) acc).2.skipped +
        (files.foldl (stepFile env rid scraped ow) acc).2.errors =
        acc.2.written + acc.2.skipped + acc.2.errors + files.length := by
  intro files
  induction files with
  | nil => intro acc; simp
  | cons f fs ih =>
      intro acc
      rw [List.foldl_cons]
      rcases ih (stepFile env rid scraped ow acc f) with ⟨ihp, ihs⟩
      rcases stepFile_counts env rid scraped ow acc f with ⟨hp, hs⟩
      refine ⟨?_, ?_⟩
      · rw [ihp, hp, List.length_cons]
        omega
      · rw [ihs, List.length_cons]
        omega

/-- One step either leaves the store alone or performs one successful
upload. -/
theorem stepFile_store_cases (env : ExtractEnv) (rid scraped : String) (ow : Bool)
    (acc : Store × Counters) (name : String) :
    (stepFile env rid scraped ow acc name).1 = acc.1 ∨
    ∃ key rec, fileAttempt env rid scraped name = .ok (key, rec) ∧
      env.uploadFails key = false ∧
      (stepFile env rid scraped ow acc name).1 = storeInsert acc.1 key rec := by
  rcases ha : fileAttempt env rid scraped name with e | kr
  · cases e
    rw [stepFile_eq_error env rid scraped ow acc name ha]
    exact Or.inl rfl
  · obtain ⟨key, rec⟩ := kr
    by_cases hex : ow = false ∧ ((acc.1).lookup key).isSome = true
    · rw [stepFile_eq_skip env rid scraped ow acc name key rec ha hex]
      exact Or.inl rfl
    · by_cases hup : env.uploadFails key = true
      · rw [stepFile_eq_upload_fail env rid scraped ow acc name key rec ha hex hup]
        exact Or.inl rfl
      · have hup2 : env.uploadFails key = false := by
          rcases hb : env.uploadFails key with _ | _
          · rfl
          · exact absurd hb hup
        rw [stepFile_eq_write env rid scraped ow acc name key rec ha hex hup2]
        exact Or.inr ⟨key, rec, rfl, hup2, rfl⟩

/-- Objects present before the loop are still present after it. -/
theorem foldl_stepFile_lookup_mono (env : ExtractEnv) (rid scraped : String) (ow : Bool) :
    ∀ (files : List String) (acc : Store × Counters) (k : String),
      ((acc.1 : Store).lookup k).isSome = true →
      (((files.foldl (stepFile env rid scraped ow) acc).1).lookup k).isSome = true := by
  intro files
  induction files with
  | nil => intro acc k h; exact h
  | cons f fs ih =>
      intro acc k h
      rw [List.foldl_cons]
      apply ih
      rcases stepFile_store_cases env rid scraped ow acc f with hc | ⟨key, rec, _, _, hc⟩
      · rw [hc]; exact h
      · rw [hc, lookup_storeInsert]
        by_cases hk : k = key
        · rw [if_pos hk]; rfl
        · rw [if_neg hk]; exact h

/-- An object present after the loop was present before it, or its key
is one the environment can successfully upload to. -/
theorem foldl_stepFile_lookup_src (env : ExtractEnv) (rid scraped : String) (ow : Bool) :
    ∀ (files : List String) (acc : Store × Counters) (k : String),
      (((files.foldl (stepFile env rid scraped ow) acc).1).lookup k).isSome = true →
      ((acc.1 : Store).lookup k).isSome = true ∨ env.uploadFails k = false := by
  intro files
  induction files with
  | nil => intro acc k h; exact Or.inl h
  | cons f fs ih =>
      intro acc k h
      rw [List.foldl_cons] at h
      rcases ih (stepFile env rid scraped ow acc f) k h with h1 | h1
      · rcases stepFile_store_cases env rid scraped ow acc f with hc | ⟨key, rec, _, hup, hc⟩
        · rw [hc] at h1
          exact Or.inl h1
        · rw [hc, lookup_storeInsert] at h1
          by_cases hk : k = key
          · exact Or.inr (hk ▸ hup)
          · rw [if_neg hk] at h1
            exact Or.inl h1
      · exact Or.inr h1

/-- The success branch of extract_http, spelled out. -/
theorem extract_http_success (env : ExtractEnv) (store : Store) (body : ExtractBody)
    (rid : String) (hb : env.bucketName ≠ "") (hc : chosenRun env body = some rid)
    (hf : ¬(txt_objects_for_run env rid = [])) :
    extract_http env store body =
      (({ ok := true, version := some "extractor-v3-jsonl-flex", run_id := some rid,
          processed_txt := some ((cappedFiles env body rid).foldl
            (stepFile env rid (parse_run_id_as_iso env.nowIso rid) body.overwrite)
            (store, czero)).2.processed,
          written_jsonl := some ((cappedFiles env body rid).foldl
            (stepFile env rid (parse_run_id_as_iso env.nowIso rid) body.overwrite)
            (store, czero)).2.written,
          skipped_existing := some ((cappedFiles env body rid).foldl
            (stepFile env rid (parse_run_id_as_iso env.nowIso rid) body.overwrite)
            (store, czero)).2.skipped,
          errors := some ((cappedFiles env body rid).foldl
            (stepFile env rid (parse_run_id_as_iso env.nowIso rid) body.overwrite)
            (store, czero)).2.errors }, 200),
       ((cappedFiles env body rid).foldl
          (stepFile env rid (parse_run_id_as_iso env.nowIso rid) body.overwrite)
          (store, czero)).1) := by
  unfold extract_http
  rw [if_neg hb]
  simp only [hc]
  rw [if_neg hf]

/-- C10 (implicit): whenever the per-file loop is reached, the result
counters satisfy processed_txt = written_jsonl + skipped_existing +
errors, and processed_txt equals the number of input files attempted
after the max_files cap. -/
theorem C10_counter_invariant (env : ExtractEnv) (store : Store) (body : ExtractBody)
    (rid : String) (hb : env.bucketName ≠ "") (hc : chosenRun env body = some rid)
    (hf : ¬(txt_objects_for_run env rid = [])) :
    ∃ n w s e,
      (extract_http env store body).1.1.processed_txt = some n ∧
      (extract_http env store body).1.1.written_jsonl = some w ∧
      (extract_http env store body).1.1.skipped_existing = some s ∧
      (extract_http env store body).1.1.errors = some e ∧
      n = w + s + e ∧ n = (cappedFiles env body rid).length := by
  rw [extract_http_success env store body rid hb hc hf]
  rcases foldl_stepFile_counts env rid (parse_run_id_as_iso env.nowIso rid) body.overwrite
    (cappedFiles env body rid) (store, czero) with ⟨hp, hs⟩
  refine ⟨_, _, _, _, rfl, rfl, rfl, rfl, ?_, ?_⟩
  · rw [hp, hs]
    simp [czero]
  · rw [hp]
    simp [czero]

/-- A five-file run with exactly one unreadable input. -/
def fiveFiles : List String :=
  ["scrapes/run_id=20250101000000/txt/a.txt",
   "scrapes/run_id=20250101000000/txt/b.txt",
   "scrapes/run_id=20250101000000/txt/c.txt",
   "scrapes/run_id=20250101000000/txt/d.txt",
   "scrapes/run_id=20250101000000/txt/e.txt"]

def fiveFileEnv : ExtractEnv :=
  { bucketName := "b", scrapesPrefixes := [],
    listBlobs := fun pre =>
      if pre = "scrapes/run_id=20250101000000/txt/" then fiveFiles else [],
    download := fun n =>
      if n = "scrapes/run_id=20250101000000/txt/c.txt" then .error () else .ok "txt",
    uploadFails := fun _ => false, nowIso := "now" }

def fiveBody : ExtractBody := { run_id := some "20250101000000" }

/-- Witness for C10 at the concrete five-file run. -/
theorem C10_counter_invariant_witness :
    ∃ n w s e,
      (extract_http fiveFileEnv [] fiveBody).1.1.processed_txt = some n ∧
      (extract_http fiveFileEnv [] fiveBody).1.1.written_jsonl = some w ∧
      (extract_http fiveFileEnv [] fiveBody).1.1.skipped_existing = some s ∧
      (extract_http fiveFileEnv [] fiveBody).1.1.errors = some e ∧
      n = w + s + e ∧ n = (cappedFiles fiveFileEnv fiveBody "20250101000000").length :=
  C10_counter_invariant fiveFileEnv [] fiveBody "20250101000000"
    (by decide) rfl (by decide)

/-- C5: a failure while reading, parsing or writing a single file only
increments the error counter and leaves the store untouched, the loop
never aborts (every attempted file is counted and the invocation
reports ok with HTTP 200), and on the concrete five-file run with one
unreadable file the result is processed 5, written 4, skipped 0,
errors 1, ok true. -/
theorem C5_per_file_failure_isolation :
    (∀ (env : ExtractEnv) (rid scraped : String) (ow : Bool)
        (acc : Store × Counters) (name : String),
      fileAttempt env rid scraped name = .error () →
      stepFile env rid scraped ow acc name =
        (acc.1, bumpP { acc.2 with errors := acc.2.errors + 1 })) ∧
    (∀ (env : ExtractEnv) (store : Store) (body : ExtractBody) (rid : String),
      env.bucketName ≠ "" → chosenRun env body = some rid →
      ¬(txt_objects_for_run env rid = []) →
      (extract_http env store body).1.1.ok = true ∧
      (extract_http env store body).1.2 = 200 ∧
      (extract_http env store body).1.1.processed_txt =
        some ((cappedFiles env body rid).length)) ∧
    (extract_http fiveFileEnv [] fiveBody).1.1 =
      { ok := true, version := some "extractor-v3-jsonl-flex",
        run_id := some "20250101000000", processed_txt := some 5,
        written_jsonl := some 4, skipped_existing := some 0, errors := some 1 } := by
  refine ⟨stepFile_eq_error, ?_, ?_⟩
  · intro env store body rid hb hc hf
    rw [extract_http_success env store body rid hb hc hf]
    rcases foldl_stepFile_counts env rid (parse_run_id_as_iso env.nowIso rid) body.overwrite
      (cappedFiles env body rid) (store, czero) with ⟨hp, _⟩
    refine ⟨rfl, rfl, ?_⟩
    rw [hp]
    simp [czero]
  · rfl

/-- Witness for C5 at the concrete five-file run. -/
theorem C5_per_file_failure_isolation_witness :
    (extract_http fiveFileEnv [] fiveBody).1.1.ok = true ∧
    (extract_http fiveFileEnv [] fiveBody).1.2 = 200 ∧
    (extract_http fiveFileEnv [] fiveBody).1.1.processed_txt =
      some ((cappedFiles fiveFileEnv fiveBody "20250101000000").length) :=
  C5_per_file_failure_isolation.2.1 fiveFileEnv [] fiveBody "20250101000000"
    (by decide) rfl (by decide)

/-- Re-running the default-mode loop over the store it produced, when
the first pass skipped nothing: every file written the first time is
skipped, every failing file fails again, nothing is written, and the
store is unchanged. -/
theorem extract_second_pass (env : ExtractEnv) (rid scraped : String) :
    ∀ (files : List String) (st : Store),
      (files.foldl (stepFile env rid scraped false) (st, czero)).2.skipped = 0 →
      files.foldl (stepFile env rid scraped false)
          ((files.foldl (stepFile env rid scraped false) (st, czero)).1, czero) =
        ((files.foldl (stepFile env rid scraped false) (st, czero)).1,
         { processed := (files.foldl (stepFile env rid scraped false) (st, czero)).2.processed,
           written := 0,
           skipped := (files.foldl (stepFile env rid scraped false) (st, czero)).2.written,
           errors := (files.foldl (stepFile env rid scraped false) (st, czero)).2.errors }) := by
  intro files
  induction files with
  | nil =>
      intro st _
      simp [czero]
  | cons f fs ih =>
      intro st hsk
      have e1 : (f :: fs).foldl (stepFile env rid scraped false) (st, czero) =
          ((fs.foldl (stepFile env rid scraped false)
              ((stepFile env rid scraped false (st, czero) f).1, czero)).1,
           cadd (stepFile env rid scraped false (st, czero) f).2
             (fs.foldl (stepFile env rid scraped false)
               ((stepFile env rid scraped false (st, czero) f).1, czero)).2) := by
        rw [List.foldl_cons]
        exact foldl_stepFile_shift env rid scraped false fs
          (stepFile env rid scraped false (st, czero) f)
      rcases ha : fileAttempt env rid scraped f with e | kr
      · cases e
        have hA : stepFile env rid scraped false (st, czero) f =
            (st, (⟨1, 0, 0, 1⟩ : Counters)) := by
          rw [stepFile_eq_error env rid scraped false (st, czero) f ha]
          simp [czero, bumpP]
        rw [e1, hA] at hsk ⊢
        dsimp only at hsk ⊢
        simp only [cadd] at hsk
        have hskX : (fs.foldl (stepFile env rid scraped false) (st, czero)).2.skipped = 0 := by
          simpa using hsk
        have hA2 : stepFile env rid scraped false
            ((fs.foldl (stepFile env rid scraped false) (st, czero)).1, czero) f =
            ((fs.foldl (stepFile env rid scraped false) (st, czero)).1,
             (⟨1, 0, 0, 1⟩ : Counters)) := by
          rw [stepFile_eq_error env rid scraped false _ f ha]
          simp [czero, bumpP]
        rw [List.foldl_cons, hA2,
           foldl_stepFile_shift env rid scraped false fs
             ((fs.foldl (stepFile env rid scraped false) (st, czero)).1,
              (⟨1, 0, 0, 1⟩ : Counters))]
        dsimp only
        rw [ih st hskX]
        simp [cadd]
      · obtain ⟨key, rec⟩ := kr
        by_cases hex : ((st : Store).lookup key).isSome = true
        · have hA : stepFile env rid scraped false (st, czero) f =
              (st, (⟨1, 0, 1, 0⟩ : Counters)) := by
            rw [stepFile_eq_skip env rid scraped false (st, czero) f key rec ha ⟨rfl, hex⟩]
            simp [czero, bumpP]
          rw [e1, hA] at hsk
          dsimp only at hsk
          simp [cadd] at hsk
        · have hexc : ¬(false = false ∧ (((st, czero) : Store × Counters).1.lookup key).isSome = true) :=
            fun h => hex h.2
          by_cases hup : env.uploadFails key = true
          · have hA : stepFile env rid scraped false (st, czero) f =
                (st, (⟨1, 0, 0, 1⟩ : Counters)) := by
              rw [stepFile_eq_upload_fail env rid scraped false (st, czero) f key rec ha hexc hup]
              simp [czero, bumpP]
            rw [e1, hA] at hsk ⊢
            dsimp only at hsk ⊢
            simp only [cadd] at hsk
            have hskX : (fs.foldl (stepFile env rid scraped false) (st, czero)).2.skipped = 0 := by
              simpa using hsk
            have h2 : ¬(((fs.foldl (stepFile env rid scraped false) (st, czero)).1).lookup key).isSome = true := by
              intro hsome
              rcases foldl_stepFile_lookup_src env rid scraped false fs (st, czero) key hsome with h | h
              · exact hex h
              · rw [h] at hup
                cases hup
            have hA2 : stepFile env rid scraped false
                ((fs.foldl (stepFile env rid scraped false) (st, czero)).1, czero) f =
                ((fs.foldl (stepFile env rid scraped false) (st, czero)).1,
                 (⟨1, 0, 0, 1⟩ : Counters)) := by
              rw [stepFile_eq_upload_fail env rid scraped false
                (((fs.foldl (stepFile env rid scraped false) (st, czero)).1, czero) :
                  Store × Counters) f key rec ha (fun h => h2 h.2) hup]
              simp [czero, bumpP]
            rw [List.foldl_cons, hA2,
               foldl_stepFile_shift env rid scraped false fs
                 ((fs.foldl (stepFile env rid scraped false) (st, czero)).1,
                  (⟨1, 0, 0, 1⟩ : Counters))]
            dsimp only
            rw [ih st hskX]
            simp [cadd]
          · have hup2 : env.uploadFails key = false := by
              rcases hb : env.uploadFails key with _ | _
              · rfl
              · exact absurd hb hup
            have hA : stepFile env rid scraped false (st, czero) f =
                (storeInsert st key rec, (⟨1, 1, 0, 0⟩ : Counters)) := by
              rw [stepFile_eq_write env rid scraped false (st, czero) f key rec ha hexc hup2]
              simp [czero, bumpP]
            rw [e1, hA] at hsk ⊢
            dsimp only at hsk ⊢
            simp only [cadd] at hsk
            have hskX : (fs.foldl (stepFile env rid scraped false)
                (storeInsert st key rec, czero)).2.skipped = 0 := by
              simpa using hsk
            have hsome : (((fs.foldl (stepFile env rid scraped false)
                (storeInsert st key rec, czero)).1).lookup key).isSome = true := by
              apply foldl_stepFile_lookup_mono env rid scraped false fs
                (storeInsert st key rec, czero) key
              show ((storeInsert st key rec).lookup key).isSome = true
              rw [lookup_storeInsert, if_pos rfl]
              rfl
            have hA2 : stepFile env rid scraped false
                ((fs.foldl (stepFile env rid scraped false) (storeInsert st key rec, czero)).1, czero) f =
                ((fs.foldl (stepFile env rid scraped false) (storeInsert st key rec, czero)).1,
                 (⟨1, 0, 1, 0⟩ : Counters)) := by
              rw [stepFile_eq_skip env rid scraped false
                (((fs.foldl (stepFile env rid scraped false) (storeInsert st key rec, czero)).1,
                   czero) : Store × Counters) f key rec ha ⟨rfl, hsome⟩]
              simp [czero, bumpP]
            rw [List.foldl_cons, hA2,
               foldl_stepFile_shift env rid scraped false fs
                 ((fs.foldl (stepFile env rid scraped false) (storeInsert st key rec, czero)).1,
                  (⟨1, 0, 1, 0⟩ : Counters))]
            dsimp only
            rw [ih (storeInsert st key rec) hskX]
            simp [cadd]

/-- A two-file run with a pre-existing output for the first file. -/
def twoFileEnv : ExtractEnv :=
  { bucketName := "b", scrapesPrefixes := [],
    listBlobs := fun pre =>
      if pre = "scrapes/run_id=20250101000000/txt/" then
        ["scrapes/run_id=20250101000000/txt/a.txt",
         "scrapes/run_id=20250101000000/txt/b.txt"]
      else [],
    download := fun _ => .ok "txt", uploadFails := fun _ => false, nowIso := "now" }

def preStore : Store :=
  [(outKey "20250101000000" "a",
    mkRecord "a" "20250101000000" "old" "old.txt" {})]

/-- C6 (counterexample): when the first invocation itself skipped a
pre-existing output (skipped 1, written N = 1), the second invocation
reports skipped_existing = 2 ≠ N, refuting "skipped_existing = N for N
files produced by the first call". -/
theorem C6_counterexample :
    (extract_http twoFileEnv preStore fiveBody).1.1.written_jsonl = some 1 ∧
    (extract_http twoFileEnv preStore fiveBody).1.1.skipped_existing = some 1 ∧
    (extract_http twoFileEnv
      (extract_http twoFileEnv preStore fiveBody).2 fiveBody).1.1.written_jsonl = some 0 ∧
    (extract_http twoFileEnv
      (extract_http twoFileEnv preStore fiveBody).2 fiveBody).1.1.skipped_existing = some 2 :=
  ⟨rfl, rfl, rfl, rfl⟩

/-- C6 (amended): in default (non-overwrite) mode an existing output
for a post-id/run is left unchanged and counted as skipped; and when a
first extraction of a run skipped nothing, a second invocation on the
same run with no new input files yields written_jsonl = 0,
skipped_existing = the first call's written_jsonl, identical processed
and error counts, and an unchanged store. -/
theorem C6_default_mode_idempotence_amended (env : ExtractEnv) (store : Store)
    (body : ExtractBody) (rid : String) (hb : env.bucketName ≠ "")
    (hc : chosenRun env body = some rid) (hf : ¬(txt_objects_for_run env rid = []))
    (how : body.overwrite = false) :
    (∀ (acc : Store × Counters) (name key : String) (rec : Record),
      fileAttempt env rid (parse_run_id_as_iso env.nowIso rid) name = .ok (key, rec) →
      ((acc.1 : Store).lookup key).isSome = true →
      stepFile env rid (parse_run_id_as_iso env.nowIso rid) false acc name =
        (acc.1, bumpP { acc.2 with skipped := acc.2.skipped + 1 })) ∧
    ((extract_http env store body).1.1.skipped_existing = some 0 →
      extract_http env (extract_http env store body).2 body =
        (({ ok := true, version := some "extractor-v3-jsonl-flex", run_id := some rid,
            processed_txt := (extract_http env store body).1.1.processed_txt,
            written_jsonl := some 0,
            skipped_existing := (extract_http env store body).1.1.written_jsonl,
            errors := (extract_http env store body).1.1.errors }, 200),
         (extract_http env store body).2)) := by
  constructor
  · intro acc name key rec hok hsome
    exact stepFile_eq_skip env rid (parse_run_id_as_iso env.nowIso rid) false acc name
      key rec hok ⟨rfl, hsome⟩
  · intro hsk0
    rw [extract_http_success env store body rid hb hc hf, how] at hsk0 ⊢
    dsimp only at hsk0 ⊢
    have hz : ((cappedFiles env body rid).foldl
        (stepFile env rid (parse_run_id_as_iso env.nowIso rid) false)
        (store, czero)).2.skipped = 0 := Option.some.inj hsk0
    rw [extract_http_success env
      ((cappedFiles env body rid).foldl
        (stepFile env rid (parse_run_id_as_iso env.nowIso rid) false) (store, czero)).1
      body rid hb hc hf, how]
    rw [extract_second_pass env rid (parse_run_id_as_iso env.nowIso rid)
      (cappedFiles env body rid) store hz]

/-- Witness for C6's amended statement at the concrete five-file run
(whose first invocation skips nothing). -/
theorem C6_default_mode_idempotence_amended_witness :
    extract_http fiveFileEnv (extract_http fiveFileEnv [] fiveBody).2 fiveBody =
      (({ ok := true, version := some "extractor-v3-jsonl-flex",
          run_id := some "20250101000000",
          processed_txt := (extract_http fiveFileEnv [] fiveBody).1.1.processed_txt,
          written_jsonl := some 0,
          skipped_existing := (extract_http fiveFileEnv [] fiveBody).1.1.written_jsonl,
          errors := (extract_http fiveFileEnv [] fiveBody).1.1.errors }, 200),
       (extract_http fiveFileEnv [] fiveBody).2) :=
  (C6_default_mode_idempotence_amended fiveFileEnv [] fiveBody "20250101000000"
    (by decide) rfl (by decide) rfl).2 rfl

/-- C8: the materializer's publish is all-or-nothing — every invocation
either succeeds (HTTP 200, ok, counts reported) and replaces the single
well-known destination object with the complete rendered table of the
merged mapping, or fails (config error, no-data, or a fault during the
scan/merge) with an error payload and leaves the store exactly as it
was; no partial table is ever written.  (Mid-upload atomicity of one
blob write is the storage collaborator's contract, outside this model.) -/
theorem C8_publish_all_or_nothing (env : MatEnv) (store : MStore) :
    (∃ table,
      mergeE env.now (((mat_list_run_ids env.structuredPrefixes).map env.recordsFor).flatten)
        = .ok table ∧
      (materialize_http env store).1.1.ok = true ∧
      (materialize_http env store).1.2 = 200 ∧
      (materialize_http env store).1.1.rows_written = some table.length ∧
      (materialize_http env store).1.1.unique_listings = some table.length ∧
      (materialize_http env store).2 =
        mstoreInsert store masterKey (renderCsv (table.map (fun kv => kv.2)))) ∨
    ((materialize_http env store).1.1.ok = false ∧
      (materialize_http env store).2 = store) := by
  unfold materialize_http
  by_cases hb : env.bucketName = ""
  · rw [if_pos hb]
    exact Or.inr ⟨rfl, rfl⟩
  · rw [if_neg hb]
    by_cases hr : (mat_list_run_ids env.structuredPrefixes).isEmpty
    · rw [if_pos hr]
      exact Or.inr ⟨rfl, rfl⟩
    · rw [if_neg hr]
      rcases hm : mergeE env.now
          (((mat_list_run_ids env.structuredPrefixes).map env.recordsFor).flatten) with e | table
      · exact Or.inr ⟨rfl, rfl⟩
      · exact Or.inl ⟨table, rfl, rfl, rfl, by simp, by simp, rfl⟩
